import Mathlib

/-!
Verification of the roast-log humor-generation pipeline.

Shallow embedding of the repository sources:
  - CacheManager        (LRU response cache)
  - AnthropicClient     (remote client: retries, circuit breaker, rate limit)
  - HumorEngine         (orchestrator)
  - generateKey         (normalization + SHA-256 fingerprint)

JavaScript Map insertion order is modelled by an association list
(head = oldest entry); Date values are modelled as natural-number
millisecond timestamps; JS number arithmetic on hit rates is modelled
over the rationals.
-/

namespace RoastLog

/-! ### Basic data model (types/index.ts) -/

inductive HumorLevel where
  | mild | medium | savage
deriving DecidableEq, Repr

inductive HumorSource where
  | api | local
deriving DecidableEq, Repr

inductive Sentiment where
  | positive | neutral | negative
deriving DecidableEq, Repr

inductive Complexity where
  | simple | medium | complex
deriving DecidableEq, Repr

/-- HumorResponse.  The field text is an Option: the value none models a
JavaScript undefined (reachable in generateFromLocal when a database entry
has an empty responses array). -/
structure HumorResponse where
  text : Option String
  confidence : ℚ
  source : HumorSource
  cached : Bool
deriving DecidableEq, Repr

structure HumorEntry where
  triggers : List String
  responses : List String
  humorLevel : HumorLevel
  category : String
deriving DecidableEq, Repr

structure ContentAnalysis where
  dataTypes : List String
  complexity : Complexity
  isError : Bool
  sentiment : Sentiment
  patterns : List String
  sanitizedContent : String
deriving DecidableEq, Repr

structure ConsoleRoastConfig where
  apiKey : Option String
  humorLevel : HumorLevel
  frequency : ℕ
  enabled : Bool
  cacheSize : ℕ
  apiTimeout : ℕ
  fallbackToLocal : Bool
deriving DecidableEq, Repr

/-! ### CacheManager (src/cache/CacheManager.ts) -/

structure CacheEntry where
  response : HumorResponse
  timestamp : ℕ
  accessCount : ℕ
deriving DecidableEq, Repr

/-- CacheManager instance state.  entries models the JS Map: an
association list in insertion order, head = least recently inserted. -/
structure CacheState where
  entries : List (String × CacheEntry)
  maxSize : ℕ
  hits : ℕ
  misses : ℕ
deriving DecidableEq, Repr

def CacheState.init (maxSize : ℕ) : CacheState :=
  { entries := [], maxSize := maxSize, hits := 0, misses := 0 }

/-- Map.prototype.get -/
def mapLookup (k : String) : List (String × CacheEntry) → Option CacheEntry
  | [] => none
  | (k', v) :: rest => if k' = k then some v else mapLookup k rest

/-- Map.prototype.delete -/
def mapDelete (k : String) : List (String × CacheEntry) → List (String × CacheEntry)
  | [] => []
  | (k', v) :: rest => if k' = k then rest else (k', v) :: mapDelete k rest

/-- Map.prototype.set on a key known to be absent (appends in insertion
order); the source always deletes an existing key before re-setting it,
so the in-place-update case of JS Map.set never has to be modelled. -/
def mapAppend (k : String) (v : CacheEntry) (m : List (String × CacheEntry)) :
    List (String × CacheEntry) :=
  m ++ [(k, v)]

/-- CacheManager.get.  On a hit: bump hits, increment accessCount,
refresh the timestamp, move the entry to the most-recently-used end.
On a miss: bump misses and return none. -/
def CacheState.get (st : CacheState) (key : String) (now : ℕ) :
    CacheState × Option CacheEntry :=
  match mapLookup key st.entries with
  | some entry =>
      let entry' : CacheEntry :=
        { entry with accessCount := entry.accessCount + 1, timestamp := now }
      ({ st with
          hits := st.hits + 1,
          entries := mapAppend key entry' (mapDelete key st.entries) },
       some entry')
  | none => ({ st with misses := st.misses + 1 }, none)

/-- CacheManager.evictLRU.  The source reads the first Map key and only
deletes it if it is truthy: the empty-string key (and the undefined key of
an empty map) is skipped. -/
def CacheState.evictLRU (st : CacheState) : CacheState :=
  match st.entries with
  | [] => st
  | (k, _) :: rest => if k = "" then st else { st with entries := rest }

/-- CacheManager.set. -/
def CacheState.set (st : CacheState) (key : String) (response : HumorResponse)
    (now : ℕ) : CacheState :=
  if st.maxSize = 0 then st
  else
    match mapLookup key st.entries with
    | some existing =>
        let entry' : CacheEntry := { existing with response := response, timestamp := now }
        { st with entries := mapAppend key entry' (mapDelete key st.entries) }
    | none =>
        let st' := if st.entries.length ≥ st.maxSize then st.evictLRU else st
        let fresh : CacheEntry := { response := response, timestamp := now, accessCount := 0 }
        { st' with entries := mapAppend key fresh st'.entries }

/-- CacheManager.clear. -/
def CacheState.clear (st : CacheState) : CacheState :=
  { st with entries := [], hits := 0, misses := 0 }

/-- CacheManager.cleanup: delete entries older than maxAgeMs.  JS computes
a signed age; entries with timestamps in the future have negative age and
are kept, which truncated ℕ subtraction models faithfully for
nonnegative maxAgeMs. -/
def CacheState.cleanup (st : CacheState) (now maxAgeMs : ℕ) : CacheState :=
  { st with entries := st.entries.filter (fun e => ¬ (now - e.2.timestamp > maxAgeMs)) }

/-- The while loop of CacheManager.setMaxSize, with explicit fuel.  Each
successful eviction removes one entry, so entries.length steps suffice;
when eviction stalls (empty-string LRU key) the JS loop does not
terminate, while this model stops after the fuel runs out. -/
def evictLoop : ℕ → CacheState → CacheState
  | 0, st => st
  | fuel + 1, st =>
      if st.entries.length > st.maxSize then evictLoop fuel st.evictLRU else st

/-- CacheManager.setMaxSize. -/
def CacheState.setMaxSize (st : CacheState) (newMaxSize : ℕ) : CacheState :=
  evictLoop (st.entries.length) { st with maxSize := newMaxSize }

/-- JS Math.round (round half toward +infinity) on a rational:
the greatest integer not exceeding q + 1/2.  Stated with mkRat so that
it evaluates inside the kernel. -/
def jsRound (q : ℚ) : ℤ := Rat.floor (q + mkRat 1 2)

/-- CacheManager.getStats: hit rate rounded to two decimal places.
mkRat a b is exactly the rational a / b (Rat.mkRat_eq_div), written in
executable form. -/
def CacheState.getStats (st : CacheState) : ℕ × ℚ :=
  let totalRequests := st.hits + st.misses
  let hitRate : ℚ := if totalRequests > 0 then mkRat st.hits totalRequests else 0
  (st.entries.length, mkRat (jsRound (hitRate * 100)) 100)

/-! Operation sequences over one CacheManager instance. -/

inductive CacheOp where
  | set (key : String) (response : HumorResponse) (now : ℕ)
  | get (key : String) (now : ℕ)
  | setMaxSize (n : ℕ)
  | cleanup (now maxAgeMs : ℕ)
  | clear
deriving DecidableEq, Repr

def applyOp (st : CacheState) : CacheOp → CacheState
  | .set k r now => st.set k r now
  | .get k now => (st.get k now).1
  | .setMaxSize n => st.setMaxSize n
  | .cleanup now maxAge => st.cleanup now maxAge
  | .clear => st.clear

def runOps (st : CacheState) : List CacheOp → CacheState
  | [] => st
  | op :: rest => runOps (applyOp st op) rest

/-- All keys stored in the cache are non-empty (so evictLRU can never
stall on a falsy key). -/
def GoodKeys (st : CacheState) : Prop := ∀ kv ∈ st.entries, kv.1 ≠ ""

/-- The capacity invariant together with key well-formedness. -/
def CacheInv (st : CacheState) : Prop :=
  st.entries.length ≤ st.maxSize ∧ GoodKeys st

/-- An operation only ever inserts non-empty keys. -/
def OpKeyOk : CacheOp → Prop
  | .set k _ _ => k ≠ ""
  | _ => True

/-- A set operation described by key, response and timestamp. -/
def setOf (it : String × HumorResponse × ℕ) : CacheOp := .set it.1 it.2.1 it.2.2

def keysOf (items : List (String × HumorResponse × ℕ)) : List String :=
  items.map (fun it => it.1)


/-! ### JS string helpers -/

/-- JS regex whitespace class (the set matched by \\s and trimmed by
String.prototype.trim). -/
def isJsSpace (c : Char) : Bool :=
  let n := c.toNat
  n = 32 || (9 ≤ n && n ≤ 13) || n = 160 || n = 0x1680 ||
  (0x2000 ≤ n && n ≤ 0x200a) || n = 0x2028 || n = 0x2029 ||
  n = 0x202f || n = 0x205f || n = 0x3000 || n = 0xfeff

/-- String.prototype.trim on the character list. -/
def jsTrimList (l : List Char) : List Char :=
  ((l.dropWhile isJsSpace).reverse.dropWhile isJsSpace).reverse

def jsTrim (s : String) : String := String.mk (jsTrimList s.data)

/-- JS truthiness of a string-or-null/undefined value: null, undefined
and the empty string are falsy. -/
def jsTruthyStr : Option String → Bool
  | some s => s ≠ ""
  | none => false

/-! ### AnthropicClient (src/anthropic/AnthropicClient.ts) -/

/-- Circuit breaker states; the source's OPEN is called opened because
open is a Lean keyword. -/
inductive CircuitBreakerState where
  | closed
  | opened
  | halfOpen
deriving DecidableEq, Repr

/-- AnthropicClient instance state.  hasClient models client !== null. -/
structure ClientState where
  hasClient : Bool
  apiKey : Option String
  rateRemaining : ℕ
  rateResetTime : ℕ
  requestsPerMinute : ℕ
  breaker : CircuitBreakerState
  failureCount : ℕ
  lastFailureTime : Option ℕ
deriving DecidableEq, Repr

def maxFailures : ℕ := 5
def circuitBreakerTimeout : ℕ := 60000
def maxRetries : ℕ := 3
def baseDelay : ℕ := 1000

/-- isAvailable: client !== null && !!config.apiKey (an empty-string key
is falsy in JS). -/
def ClientState.isAvailable (st : ClientState) : Bool :=
  st.hasClient && jsTruthyStr st.apiKey

/-- shouldAttemptReset.  JS computes a signed difference; when now < t
the difference is negative and below the timeout, which truncated ℕ
subtraction (giving 0) models faithfully. -/
def ClientState.shouldAttemptReset (st : ClientState) (now : ℕ) : Bool :=
  match st.lastFailureTime with
  | none => false
  | some t => now - t ≥ circuitBreakerTimeout

def ClientState.onSuccess (st : ClientState) : ClientState :=
  { st with
      failureCount := 0
      lastFailureTime := none
      breaker := CircuitBreakerState.closed }

def ClientState.onFailure (st : ClientState) (now : ℕ) : ClientState :=
  let st1 := { st with failureCount := st.failureCount + 1, lastFailureTime := some now }
  if st1.failureCount ≥ maxFailures then
    { st1 with breaker := CircuitBreakerState.opened }
  else st1

/-- updateRateLimitInfo: decrement with floor 0 (Math.max models ℕ
subtraction), then reset to the full quota if the window has passed. -/
def ClientState.updateRateLimitInfo (st : ClientState) (now : ℕ) : ClientState :=
  let st1 := { st with rateRemaining := st.rateRemaining - 1 }
  if now ≥ st1.rateResetTime then
    { st1 with
        rateRemaining := st1.requestsPerMinute
        rateResetTime := now + 60000 }
  else st1

/-- Outcome of one transport invocation (the Promise.race of
client.messages.create against the timeout): either the promise rejects
(network error or timeout), or it resolves and the response either
contains a text block or not (empty content and missing text block are
collapsed into reply none, both of which throw after the rate-limit
update). -/
inductive TransportOutcome where
  | thrown (msg : String)
  | reply (text : Option String)
deriving DecidableEq, Repr

/-- validateAndFormatResponse: trim, strip one leading and one trailing
quote (the regex matches each end once), truncate over-long text with an
ellipsis, and reject an empty result (modelled as none, the thrown
"Empty humor response"). -/
def validateAndFormatResponse (response : String) : Option String :=
  let t0 := jsTrim response
  let t1 := if t0.length > 0 && (t0.front = '"' || t0.front = '\x27')
    then t0.drop 1 else t0
  let t2 := if t1.length > 0 && (t1.back = '"' || t1.back = '\x27')
    then t1.dropRight 1 else t1
  let f := if t2.length > 150 then t2.take 147 ++ "..." else t2
  if f = "" then none else some f

/-- makeApiCall: guard on the client handle, run the transport, update
rate-limit bookkeeping only when the transport resolved, then validate.
The Except.error carries the thrown message. -/
def makeApiCall (st : ClientState) (now : ℕ) (o : TransportOutcome) :
    ClientState × Except String String :=
  if st.hasClient = false then
    (st, Except.error "Anthropic client not initialized")
  else
    match o with
    | TransportOutcome.thrown m => (st, Except.error m)
    | TransportOutcome.reply b =>
        let st1 := st.updateRateLimitInfo now
        match b with
        | none => (st1, Except.error "No text content in API response")
        | some t =>
            match validateAndFormatResponse t with
            | none => (st1, Except.error "Empty humor response")
            | some f => (st1, Except.ok f)

/-- ApiResponse as far as the orchestrator consumes it. -/
structure ClientResult where
  success : Bool
  humor : Option String
  error : Option String
deriving DecidableEq, Repr

/-- Observable trace of one AnthropicClient.generateHumor call:
final state, returned result, number of transport invocations, backoff
delays awaited between attempts, and the breaker state in effect when
the retry loop was entered (halfOpen after a cooldown reset). -/
structure CallTrace where
  state : ClientState
  result : ClientResult
  transportCalls : ℕ
  delays : List ℕ
  breakerEntered : CircuitBreakerState
deriving Repr

/-- The for-loop of generateHumor: remaining attempts, 1-based attempt
index, accumulated transport count and delays.  The remaining = 0 case is
the unreachable fallthrough return of the source. -/
def attemptLoop (now : ℕ) (outcomes : ℕ → TransportOutcome) :
    ℕ → ℕ → ClientState → ℕ → List ℕ →
    ClientState × ClientResult × ℕ × List ℕ
  | 0, _, st, calls, delays =>
      (st, ⟨false, none, some "Unexpected error"⟩, calls, delays)
  | remaining + 1, attempt, st, calls, delays =>
      let calls1 := calls + (if st.hasClient then 1 else 0)
      match makeApiCall st now (outcomes attempt) with
      | (st1, Except.ok humor) =>
          (st1.onSuccess, ⟨true, some humor, none⟩, calls1, delays)
      | (st1, Except.error msg) =>
          if remaining = 0 then
            (st1.onFailure now, ⟨false, none, some msg⟩, calls1, delays)
          else
            attemptLoop now outcomes remaining (attempt + 1) st1 calls1
              (delays ++ [baseDelay * 2 ^ (attempt - 1)])

/-- Steps 2-5 of generateHumor: availability check, rate-limit check,
then the retry loop. -/
def clientBody (st : ClientState) (now : ℕ) (outcomes : ℕ → TransportOutcome) :
    CallTrace :=
  if st.isAvailable = false then
    { state := st
      result := ⟨false, none, some "Anthropic client not available - missing API key"⟩
      transportCalls := 0
      delays := []
      breakerEntered := st.breaker }
  else if st.rateRemaining = 0 ∧ now < st.rateResetTime then
    { state := st
      result := ⟨false, none, some "Rate limit exceeded"⟩
      transportCalls := 0
      delays := []
      breakerEntered := st.breaker }
  else
    let r := attemptLoop now outcomes maxRetries 1 st 0 []
    { state := r.1
      result := r.2.1
      transportCalls := r.2.2.1
      delays := r.2.2.2
      breakerEntered := st.breaker }

/-- AnthropicClient.generateHumor as a step function over the client
state.  now is the call time; outcomes gives the transport outcome of
each 1-based attempt. -/
def ClientState.generateHumor (st : ClientState) (now : ℕ)
    (outcomes : ℕ → TransportOutcome) : CallTrace :=
  if st.breaker = CircuitBreakerState.opened then
    if st.shouldAttemptReset now then
      clientBody { st with breaker := CircuitBreakerState.halfOpen } now outcomes
    else
      { state := st
        result := ⟨false, none, some "Circuit breaker is open - API temporarily unavailable"⟩
        transportCalls := 0
        delays := []
        breakerEntered := CircuitBreakerState.opened }
  else clientBody st now outcomes

/-- A sequence of generateHumor calls, threading the client state. -/
def runCalls (st : ClientState) : List (ℕ × (ℕ → TransportOutcome)) → ClientState
  | [] => st
  | (now, o) :: rest => runCalls (st.generateHumor now o).state rest

/-! ### HumorEngine (src/humor/HumorEngine.ts) -/

/-- External nondeterminism seen by one HumorEngine.generateHumor call:
the cache lookup (an entry object is truthy, null is falsy), whether the
try/catch around key generation and lookup threw, the injected client
availability and ApiResponse fields, the database query results, and the
Math.random draws (an arbitrary natural, reduced modulo the list length,
ranges over exactly the indices Math.floor(Math.random()*len) can hit). -/
structure EngineEnv where
  cacheFails : Bool
  cacheHit : Option HumorResponse
  clientAvailable : Bool
  apiSuccess : Bool
  apiHumor : Option String
  dbMatching : List HumorEntry
  dbRandom : String → Option String
  randEntry : ℕ
  randResponse : ℕ
  randFallback : ℕ

/-- HumorEngine.shouldUseApi: apiKey !== undefined, client available,
and fallbackToLocal !== false. -/
def shouldUseApi (cfg : ConsoleRoastConfig) (env : EngineEnv) : Bool :=
  cfg.apiKey.isSome && env.clientAvailable && cfg.fallbackToLocal

/-- HumorEngine.selectHumorType. -/
def selectHumorType (analysis : ContentAnalysis) : String :=
  if analysis.isError || analysis.sentiment = Sentiment.negative then "error"
  else if analysis.sentiment = Sentiment.positive then "success"
  else if analysis.patterns.contains "json" || analysis.patterns.contains "array"
      || analysis.dataTypes.contains "object" || analysis.dataTypes.contains "array"
    then "data"
  else "general"

/-- The hard-coded per-level fallback lists of getUltimateFallback. -/
def ultimateFallbackList : HumorLevel → List String
  | HumorLevel.mild =>
    ["Well, that\x27s interesting! 🤔",
     "Noted and logged! 📝",
     "Another day, another log entry!",
     "Console.log: the developer\x27s faithful companion",
     "Logging in progress... carry on! ✨"]
  | HumorLevel.medium =>
    ["Console.log: because printf debugging never goes out of style!",
     "Another entry in the digital diary of development",
     "Your console is chattier than a coffee shop on Monday morning ☕",
     "Debugging: the art of talking to yourself through code",
     "Console.log: turning developers into digital detectives since forever 🕵️"]
  | HumorLevel.savage =>
    ["Console.log: because real debuggers are for people who plan ahead",
     "Another log entry in the epic saga of \x27Why Doesn\x27t This Work?\x27",
     "Your console has more drama than a reality TV show 📺",
     "Console.log: the developer\x27s equivalent of talking to themselves",
     "Debugging: the fine art of staring at code until it confesses 👁️"]

/-- HumorEngine.getUltimateFallback: the humorLevel is always one of the
three keys, so the || fallbacks.mild default never fires; a random entry
of the level list is returned. -/
def getUltimateFallback (level : HumorLevel) (rand : ℕ) : String :=
  (ultimateFallbackList level).getD (rand % (ultimateFallbackList level).length) ""

/-- HumorEngine.generateFromLocal.  Returns none exactly when the source
returns JS undefined (a matching entry with an empty responses array).
getRandomHumor results are checked for truthiness, so a null or
empty-string category result falls through to the next tier. -/
def generateFromLocal (env : EngineEnv) (cfg : ConsoleRoastConfig)
    (analysis : ContentAnalysis) : Option String :=
  if h : 0 < env.dbMatching.length then
    let entry := env.dbMatching.get ⟨env.randEntry % env.dbMatching.length,
      Nat.mod_lt _ h⟩
    if hr : 0 < entry.responses.length then
      some (entry.responses.get ⟨env.randResponse % entry.responses.length,
        Nat.mod_lt _ hr⟩)
    else none
  else
    let categoryHumor := env.dbRandom (selectHumorType analysis)
    if jsTruthyStr categoryHumor then categoryHumor
    else
      let generalHumor := env.dbRandom "general"
      if jsTruthyStr generalHumor then generalHumor
      else some (getUltimateFallback cfg.humorLevel env.randFallback)

/-- Observable outcome of one HumorEngine.generateHumor call: the
returned response, whether the remote client was invoked, and the
best-effort cache write-back. -/
structure EngineTrace where
  response : HumorResponse
  apiCalled : Bool
  cacheWrite : Option HumorResponse

/-- HumorEngine.generateHumor.  A cache error (cacheFails) disables the
lookup and the write-back for this call only; a cache hit is returned
with cached := true; otherwise the API is tried when eligible, and on
failure or ineligibility the local path supplies the text. -/
def engineGenerateHumor (env : EngineEnv) (cfg : ConsoleRoastConfig)
    (analysis : ContentAnalysis) : EngineTrace :=
  match (if env.cacheFails then none else env.cacheHit) with
  | some r =>
      { response := { r with cached := true }
        apiCalled := false
        cacheWrite := none }
  | none =>
      if shouldUseApi cfg env then
        if env.apiSuccess && jsTruthyStr env.apiHumor then
          let humorResponse : HumorResponse :=
            { text := env.apiHumor
              confidence := 9/10
              source := HumorSource.api
              cached := false }
          { response := humorResponse
            apiCalled := true
            cacheWrite := if env.cacheFails then none else some humorResponse }
        else
          let humorResponse : HumorResponse :=
            { text := generateFromLocal env cfg analysis
              confidence := 7/10
              source := HumorSource.local
              cached := false }
          { response := humorResponse
            apiCalled := true
            cacheWrite := if env.cacheFails then none else some humorResponse }
      else
        let humorResponse : HumorResponse :=
          { text := generateFromLocal env cfg analysis
            confidence := 7/10
            source := HumorSource.local
            cached := false }
        { response := humorResponse
          apiCalled := false
          cacheWrite := if env.cacheFails then none else some humorResponse }

/-! ### generateKey: normalization and SHA-256 (CacheManager.generateKey) -/

/-- String.prototype.toLowerCase restricted to ASCII letters (the only
case folding the cache keys exercise); written as an explicit table so
that proofs can case on it. -/
def jsToLower (c : Char) : Char :=
  match c with
  | 'A' => 'a' | 'B' => 'b' | 'C' => 'c' | 'D' => 'd' | 'E' => 'e'
  | 'F' => 'f' | 'G' => 'g' | 'H' => 'h' | 'I' => 'i' | 'J' => 'j'
  | 'K' => 'k' | 'L' => 'l' | 'M' => 'm' | 'N' => 'n' | 'O' => 'o'
  | 'P' => 'p' | 'Q' => 'q' | 'R' => 'r' | 'S' => 's' | 'T' => 't'
  | 'U' => 'u' | 'V' => 'v' | 'W' => 'w' | 'X' => 'x' | 'Y' => 'y'
  | 'Z' => 'z'
  | c => c

def jsToLowerList (l : List Char) : List Char := l.map jsToLower

/-- replace(/\s+/g, " "): every maximal whitespace run becomes one
space.  The Bool argument tracks whether the previous character was part
of a run. -/
def collapseWsAux : Bool → List Char → List Char
  | _, [] => []
  | inRun, c :: cs =>
      if isJsSpace c then
        if inRun then collapseWsAux true cs
        else ' ' :: collapseWsAux true cs
      else c :: collapseWsAux false cs

def collapseWs (l : List Char) : List Char := collapseWsAux false l

/-- The JS regex word class \w = [A-Za-z0-9_]. -/
def isJsWord (c : Char) : Bool :=
  (65 ≤ c.toNat && c.toNat ≤ 90) || (97 ≤ c.toNat && c.toNat ≤ 122) ||
  (48 ≤ c.toNat && c.toNat ≤ 57) || c = '_'

/-- replace(/[^\w\s]/g, ""). -/
def stripNonWord (l : List Char) : List Char :=
  l.filter (fun c => isJsWord c || isJsSpace c)

/-- CacheManager.normalizeContent: lowercase, collapse whitespace runs,
trim, strip punctuation, truncate to 1000 characters. -/
def normalizeContent (s : String) : String :=
  String.mk ((stripNonWord (jsTrimList (collapseWs (jsToLowerList s.data)))).take 1000)

/-- UTF-8 encoding of one code point (crypto.update hashes the UTF-8
bytes of the string). -/
def utf8EncodeChar (c : Char) : List ℕ :=
  let n := c.toNat
  if n < 0x80 then [n]
  else if n < 0x800 then
    [0xC0 ||| (n >>> 6), 0x80 ||| (n &&& 0x3F)]
  else if n < 0x10000 then
    [0xE0 ||| (n >>> 12), 0x80 ||| ((n >>> 6) &&& 0x3F), 0x80 ||| (n &&& 0x3F)]
  else
    [0xF0 ||| (n >>> 18), 0x80 ||| ((n >>> 12) &&& 0x3F),
     0x80 ||| ((n >>> 6) &&& 0x3F), 0x80 ||| (n &&& 0x3F)]

def utf8Encode (s : String) : List ℕ := s.data.flatMap utf8EncodeChar

/-! SHA-256over byte lists, 32-bit words as naturals reduced mod 2^32. -/

def w32 (n : ℕ) : ℕ := n % 4294967296

def rotr32 (x n : ℕ) : ℕ := w32 ((x >>> n) ||| (x <<< (32 - n)))

def sha256K : List ℕ :=
  [1116352408, 1899447441, 3049323471, 3921009573,
   961987163, 1508970993, 2453635748, 2870763221,
   3624381080, 310598401, 607225278, 1426881987,
   1925078388, 2162078206, 2614888103, 3248222580,
   3835390401, 4022224774, 264347078, 604807628,
   770255983, 1249150122, 1555081692, 1996064986,
   2554220882, 2821834349, 2952996808, 3210313671,
   3336571891, 3584528711, 113926993, 338241895,
   666307205, 773529912, 1294757372, 1396182291,
   1695183700, 1986661051, 2177026350, 2456956037,
   2730485921, 2820302411, 3259730800, 3345764771,
   3516065817, 3600352804, 4094571909, 275423344,
   430227734, 506948616, 659060556, 883997877,
   958139571, 1322822218, 1537002063, 1747873779,
   1955562222, 2024104815, 2227730452, 2361852424,
   2428436474, 2756734187, 3204031479, 3329325298]

/-- Big-endian 8-byte length field (message length in bits). -/
def lenBytes (bits : ℕ) : List ℕ :=
  (List.range 8).map (fun i => (bits >>> (8 * (7 - i))) % 256)

/-- Message padding: 0x80, zeros to 56 mod 64, 8-byte bit length. -/
def sha256Pad (msg : List ℕ) : List ℕ :=
  let L := msg.length
  let k := (119 - (L % 64)) % 64
  msg ++ [0x80] ++ List.replicate k 0 ++ lenBytes (8 * L)

/-- Four big-endian bytes per 32-bit word. -/
def bytesToWords : List ℕ → List ℕ
  | b0 :: b1 :: b2 :: b3 :: rest =>
      ((((b0 <<< 8) ||| b1) <<< 8 ||| b2) <<< 8 ||| b3) :: bytesToWords rest
  | _ => []

/-- Split the word stream into 16-word blocks; the fuel argument (any
bound on the number of blocks, e.g. the list length) keeps the recursion
structural. -/
def toBlocks : ℕ → List ℕ → List (List ℕ)
  | 0, _ => []
  | _, [] => []
  | fuel + 1, ws => ws.take 16 :: toBlocks fuel (ws.drop 16)

/-- Message-schedule extension from 16 to 64 words. -/
def extendLoop : ℕ → List ℕ → List ℕ
  | 0, acc => acc
  | n + 1, acc =>
      let i := acc.length
      let w15 := acc.getD (i - 15) 0
      let w2 := acc.getD (i - 2) 0
      let w16 := acc.getD (i - 16) 0
      let w7 := acc.getD (i - 7) 0
      let s0 := (rotr32 w15 7) ^^^ (rotr32 w15 18) ^^^ (w15 >>> 3)
      let s1 := (rotr32 w2 17) ^^^ (rotr32 w2 19) ^^^ (w2 >>> 10)
      extendLoop n (acc ++ [w32 (w16 + s0 + w7 + s1)])

def schedule (ws : List ℕ) : List ℕ := extendLoop 48 ws

structure Sha256St where
  a : ℕ
  b : ℕ
  c : ℕ
  d : ℕ
  e : ℕ
  f : ℕ
  g : ℕ
  h : ℕ
deriving DecidableEq, Repr

def compressStep (st : Sha256St) (kw : ℕ × ℕ) : Sha256St :=
  let S1 := (rotr32 st.e 6) ^^^ (rotr32 st.e 11) ^^^ (rotr32 st.e 25)
  let ch := (st.e &&& st.f) ^^^ ((4294967295 ^^^ st.e) &&& st.g)
  let temp1 := w32 (st.h + S1 + ch + kw.1 + kw.2)
  let S0 := (rotr32 st.a 2) ^^^ (rotr32 st.a 13) ^^^ (rotr32 st.a 22)
  let maj := (st.a &&& st.b) ^^^ (st.a &&& st.c) ^^^ (st.b &&& st.c)
  let temp2 := w32 (S0 + maj)
  ⟨w32 (temp1 + temp2), st.a, st.b, st.c, w32 (st.d + temp1), st.e, st.f, st.g⟩

def sha256Init : Sha256St :=
  ⟨1779033703, 3144134277, 1013904242, 2773480762,
   1359893119, 2600822924, 528734635, 1541459225⟩

def processBlock (hs : Sha256St) (block : List ℕ) : Sha256St :=
  let ws := schedule block
  let st := (sha256K.zip ws).foldl compressStep hs
  ⟨w32 (hs.a + st.a), w32 (hs.b + st.b), w32 (hs.c + st.c), w32 (hs.d + st.d),
   w32 (hs.e + st.e), w32 (hs.f + st.f), w32 (hs.g + st.g), w32 (hs.h + st.h)⟩

def sha256Words (msg : List ℕ) : Sha256St :=
  let ws := bytesToWords (sha256Pad msg)
  (toBlocks ws.length ws).foldl processBlock sha256Init

def hexDigit (n : ℕ) : Char :=
  if n < 10 then Char.ofNat (48 + n) else Char.ofNat (87 + n)

def wordHex (w : ℕ) : List Char :=
  (List.range 8).map (fun i => hexDigit ((w >>> (28 - 4 * i)) % 16))

def sha256Hex (msg : List ℕ) : List Char :=
  let st := sha256Words msg
  wordHex st.a ++ wordHex st.b ++ wordHex st.c ++ wordHex st.d ++
  wordHex st.e ++ wordHex st.f ++ wordHex st.g ++ wordHex st.h

/-- CacheManager.generateKey: SHA-256 of the normalized content,
hex-encoded, truncated to the first 16 characters. -/
def generateKey (content : String) : String :=
  String.mk ((sha256Hex (utf8Encode (normalizeContent content))).take 16)

/-! ### Association-list lemmas for the Map model -/

theorem mapLookup_eq_none_iff (k : String) (m : List (String × CacheEntry)) :
    mapLookup k m = none ↔ k ∉ m.map Prod.fst := by
  induction m with
  | nil => simp [mapLookup]
  | cons kv rest ih =>
      obtain ⟨k', v⟩ := kv
      by_cases h : k' = k
      · subst h; simp [mapLookup]
      · simp [mapLookup, h, ih, Ne.symm h]

theorem mapLookup_mem_of_eq_some {k : String} {m : List (String × CacheEntry)}
    {v : CacheEntry} (h : mapLookup k m = some v) : (k, v) ∈ m := by
  induction m with
  | nil => simp [mapLookup] at h
  | cons kv rest ih =>
      obtain ⟨k', v'⟩ := kv
      by_cases hk : k' = k
      · subst hk
        simp [mapLookup] at h
        simp [h]
      · simp [mapLookup, hk] at h
        exact List.mem_cons_of_mem _ (ih h)

theorem mapDelete_subset {k : String} {m : List (String × CacheEntry)} :
    ∀ kv ∈ mapDelete k m, kv ∈ m := by
  induction m with
  | nil => simp [mapDelete]
  | cons hd rest ih =>
      obtain ⟨k', v'⟩ := hd
      by_cases hk : k' = k
      · simp [mapDelete, hk]
        intro a b hab
        exact Or.inr hab
      · intro kv hkv
        simp [mapDelete, hk] at hkv
        rcases hkv with h | h
        · simp [h]
        · exact List.mem_cons_of_mem _ (ih _ h)

theorem length_mapDelete_of_mem {k : String} {m : List (String × CacheEntry)}
    (h : k ∈ m.map Prod.fst) : (mapDelete k m).length + 1 = m.length := by
  induction m with
  | nil => simp at h
  | cons hd rest ih =>
      obtain ⟨k', v'⟩ := hd
      by_cases hk : k' = k
      · simp [mapDelete, hk]
      · simp only [List.map_cons, List.mem_cons] at h
        rcases h with h | h
        · exact absurd h.symm hk
        · simp [mapDelete, hk, ih h]

/-! ### Claim C3: capacity invariant -/


theorem evictLRU_maxSize (st : CacheState) : st.evictLRU.maxSize = st.maxSize := by
  unfold CacheState.evictLRU
  cases st.entries with
  | nil => rfl
  | cons hd rest => by_cases h : hd.1 = "" <;> simp [h]

theorem evictLRU_goodKeys {st : CacheState} (h : GoodKeys st) : GoodKeys st.evictLRU := by
  unfold CacheState.evictLRU
  cases hent : st.entries with
  | nil => simp only []; exact h
  | cons hd rest =>
      by_cases hk : hd.1 = ""
      · simp only [hk]
        exact h
      · simp only [hk]
        intro kv hkv
        exact h kv (by simp [hent]; right; simpa using hkv)

theorem evictLRU_length {st : CacheState} (hgood : GoodKeys st)
    (hne : st.entries ≠ []) : st.evictLRU.entries.length + 1 = st.entries.length := by
  unfold CacheState.evictLRU
  cases hent : st.entries with
  | nil => exact absurd hent hne
  | cons hd rest =>
      have hk : hd.1 ≠ "" := hgood hd (by simp [hent])
      simp [hk, hent]

theorem evictLoop_maxSize (fuel : ℕ) (st : CacheState) :
    (evictLoop fuel st).maxSize = st.maxSize := by
  induction fuel generalizing st with
  | zero => rfl
  | succ n ih =>
      unfold evictLoop
      by_cases h : st.entries.length > st.maxSize
      · simp [h, ih, evictLRU_maxSize]
      · simp [h]

theorem evictLoop_goodKeys (fuel : ℕ) {st : CacheState} (h : GoodKeys st) :
    GoodKeys (evictLoop fuel st) := by
  induction fuel generalizing st with
  | zero => exact h
  | succ n ih =>
      unfold evictLoop
      by_cases hlen : st.entries.length > st.maxSize
      · simp only [hlen, if_true]
        exact ih (evictLRU_goodKeys h)
      · simp only [hlen, if_false]
        exact h

theorem evictLoop_length (fuel : ℕ) {st : CacheState} (hgood : GoodKeys st)
    (hfuel : st.entries.length ≤ st.maxSize + fuel) :
    (evictLoop fuel st).entries.length ≤ (evictLoop fuel st).maxSize := by
  induction fuel generalizing st with
  | zero =>
      simpa [evictLoop] using hfuel
  | succ n ih =>
      unfold evictLoop
      by_cases hlen : st.entries.length > st.maxSize
      · simp only [hlen, if_true]
        have hne : st.entries ≠ [] := by
          intro hnil
          rw [hnil] at hlen
          simp at hlen
        have hlen' := evictLRU_length hgood hne
        have : st.evictLRU.entries.length ≤ st.evictLRU.maxSize + n := by
          rw [evictLRU_maxSize]
          omega
        exact ih (evictLRU_goodKeys hgood) this
      · simp only [hlen, if_false]
        omega

theorem cacheInv_applyOp {st : CacheState} {op : CacheOp}
    (hinv : CacheInv st) (hop : OpKeyOk op) : CacheInv (applyOp st op) := by
  obtain ⟨hlen, hgood⟩ := hinv
  cases op with
  | set k r now =>
      have hk : k ≠ "" := hop
      show CacheInv (st.set k r now)
      unfold CacheState.set
      by_cases h0 : st.maxSize = 0
      · simpa [h0] using ⟨hlen, hgood⟩
      · simp only [h0, if_false]
        cases hlook : mapLookup k st.entries with
        | some existing =>
            have hmem : k ∈ st.entries.map Prod.fst := by
              by_contra hc
              rw [← mapLookup_eq_none_iff] at hc
              rw [hc] at hlook; cases hlook
            constructor
            · simp only [mapAppend, List.length_append, List.length_cons,
                List.length_nil]
              have := length_mapDelete_of_mem hmem
              omega
            · intro kv hkv
              simp only [mapAppend, List.mem_append, List.mem_singleton] at hkv
              rcases hkv with h | h
              · exact hgood kv (mapDelete_subset kv h)
              · simp [h, hk]
        | none =>
            by_cases hfull : st.entries.length ≥ st.maxSize
            · have hne : st.entries ≠ [] := by
                intro hnil
                rw [hnil] at hfull
                simp at hfull
                omega
              have hev := evictLRU_length hgood hne
              have hevg := evictLRU_goodKeys hgood
              constructor
              · simp only [hfull, if_true, mapAppend, List.length_append,
                  List.length_cons, List.length_nil]
                have := evictLRU_maxSize st
                omega
              · simp only [hfull, if_true]
                intro kv hkv
                simp only [mapAppend, List.mem_append, List.mem_singleton] at hkv
                rcases hkv with h | h
                · exact hevg kv h
                · simp [h, hk]
            · constructor
              · simp only [hfull, if_false, mapAppend, List.length_append,
                  List.length_cons, List.length_nil]
                omega
              · simp only [hfull, if_false]
                intro kv hkv
                simp only [mapAppend, List.mem_append, List.mem_singleton] at hkv
                rcases hkv with h | h
                · exact hgood kv h
                · simp [h, hk]
  | get k now =>
      show CacheInv (st.get k now).1
      unfold CacheState.get
      cases hlook : mapLookup k st.entries with
      | some entry =>
          have hpair := mapLookup_mem_of_eq_some hlook
          have hmem : k ∈ st.entries.map Prod.fst := by
            exact List.mem_map_of_mem Prod.fst hpair
          have hk : k ≠ "" := hgood (k, entry) hpair
          constructor
          · simp only [mapAppend, List.length_append, List.length_cons,
              List.length_nil]
            have := length_mapDelete_of_mem hmem
            omega
          · intro kv hkv
            simp only [mapAppend, List.mem_append, List.mem_singleton] at hkv
            rcases hkv with h | h
            · exact hgood kv (mapDelete_subset kv h)
            · simp [h, hk]
      | none => exact ⟨hlen, hgood⟩
  | setMaxSize n =>
      show CacheInv (st.setMaxSize n)
      unfold CacheState.setMaxSize
      constructor
      · exact evictLoop_length _ hgood (by simp)
      · exact evictLoop_goodKeys _ hgood
  | cleanup now maxAge =>
      show CacheInv (st.cleanup now maxAge)
      unfold CacheState.cleanup
      constructor
      · calc (st.entries.filter _).length ≤ st.entries.length :=
              List.length_filter_le _ _
          _ ≤ st.maxSize := hlen
      · intro kv hkv
        exact hgood kv (List.mem_of_mem_filter hkv)
  | clear =>
      show CacheInv st.clear
      refine ⟨by simp [CacheState.clear], ?_⟩
      intro kv hkv
      simp [CacheState.clear] at hkv

theorem cacheInv_runOps {st : CacheState} {ops : List CacheOp}
    (hinv : CacheInv st) (hops : ∀ op ∈ ops, OpKeyOk op) :
    CacheInv (runOps st ops) := by
  induction ops generalizing st with
  | nil => exact hinv
  | cons op rest ih =>
      exact ih (cacheInv_applyOp hinv (hops op (by simp)))
        (fun o ho => hops o (by simp [ho]))

/-- Claim C3, counterexample: with the empty-string key (which evictLRU
skips because it is falsy), two set operations on a capacity-1 cache leave
two stored entries, exceeding maxSize. -/
theorem c3_counterexample :
    (runOps (CacheState.init 1)
      [CacheOp.set "" ⟨some "x", 9/10, .api, false⟩ 0,
       CacheOp.set "a" ⟨some "x", 9/10, .api, false⟩ 0]).entries.length = 2 ∧
    (runOps (CacheState.init 1)
      [CacheOp.set "" ⟨some "x", 9/10, .api, false⟩ 0,
       CacheOp.set "a" ⟨some "x", 9/10, .api, false⟩ 0]).maxSize = 1 := by
  decide

/-- Claim C3 (amended): for every sequence of set, get, setMaxSize,
cleanup and clear operations whose set keys are non-empty, the number of
stored entries never exceeds the current maxSize; and when maxSize is 0,
every set is a no-op (the cache stays empty) and every get returns null
and counts as a miss. -/
theorem c3_capacity_invariant (m : ℕ) (ops : List CacheOp) (st : CacheState)
    (hst : st = runOps (CacheState.init m) ops)
    (hkeys : ∀ op ∈ ops, OpKeyOk op) :
    st.entries.length ≤ st.maxSize ∧
    (st.maxSize = 0 →
      st.entries = [] ∧
      (∀ k r now, st.set k r now = st) ∧
      (∀ k now, (st.get k now).2 = none ∧ (st.get k now).1.misses = st.misses + 1)) := by
  have hinit : CacheInv (CacheState.init m) := by
    constructor
    · simp [CacheState.init]
    · intro kv hkv
      simp [CacheState.init] at hkv
  have hinv : CacheInv st := hst ▸ cacheInv_runOps hinit hkeys
  obtain ⟨hlen, hgood⟩ := hinv
  refine ⟨hlen, ?_⟩
  intro h0
  have hemp : st.entries = [] := by
    rw [h0] at hlen
    exact List.length_eq_zero.mp (Nat.le_zero.mp hlen)
  refine ⟨hemp, ?_, ?_⟩
  · intro k r now
    simp [CacheState.set, h0]
  · intro k now
    constructor <;> simp [CacheState.get, hemp, mapLookup]

/-- Witness for c3_capacity_invariant at a concrete operation list. -/
theorem c3_capacity_invariant_witness :
    (∀ op ∈ ([CacheOp.get "a" 5] : List CacheOp), OpKeyOk op) ∧
    (runOps (CacheState.init 0) [CacheOp.get "a" 5]).entries.length ≤
      (runOps (CacheState.init 0) [CacheOp.get "a" 5]).maxSize := by
  have hops : ∀ op ∈ ([CacheOp.get "a" 5] : List CacheOp), OpKeyOk op := by
    intro op hop
    simp at hop
    subst hop
    trivial
  exact ⟨hops, (c3_capacity_invariant 0 [CacheOp.get "a" 5] _ rfl hops).1⟩

/-! ### Claim C4: LRU eviction order -/


theorem runOps_append (st : CacheState) (l1 l2 : List CacheOp) :
    runOps st (l1 ++ l2) = runOps (runOps st l1) l2 := by
  induction l1 generalizing st with
  | nil => rfl
  | cons op rest ih => simp [runOps, ih]

theorem mapLookup_ne_none_of_mem {k : String} {m : List (String × CacheEntry)}
    (h : k ∈ m.map Prod.fst) : mapLookup k m ≠ none := by
  intro hc
  exact (mapLookup_eq_none_iff k m).mp hc h

/-- Inserting a run of fresh, pairwise-distinct keys that fits below
capacity appends them in order without evicting anything. -/
theorem runSets_keys (items : List (String × HumorResponse × ℕ)) :
    ∀ st : CacheState,
    (st.entries.map Prod.fst ++ keysOf items).Nodup →
    st.entries.length + items.length ≤ st.maxSize →
    (runOps st (items.map setOf)).entries.map Prod.fst
        = st.entries.map Prod.fst ++ keysOf items ∧
    (runOps st (items.map setOf)).maxSize = st.maxSize := by
  induction items with
  | nil =>
      intro st _ _
      simp [runOps, keysOf]
  | cons it rest ih =>
      intro st hnodup hlen
      obtain ⟨k, r, t⟩ := it
      have hkeys : keysOf ((k, r, t) :: rest) = k :: keysOf rest := rfl
      rw [hkeys] at hnodup
      have hmax0 : st.maxSize ≠ 0 := by
        intro h
        rw [h] at hlen
        simp at hlen
      have hknotin : k ∉ st.entries.map Prod.fst := by
        have hdisj := (List.nodup_append.mp hnodup).2.2
        intro hc
        exact hdisj hc (by simp)
      have hlook : mapLookup k st.entries = none :=
        (mapLookup_eq_none_iff k st.entries).mpr hknotin
      have hnotfull : ¬ st.entries.length ≥ st.maxSize := by
        simp only [List.length_cons] at hlen
        omega
      have hstep : (st.set k r t).entries = st.entries ++ [(k,
          { response := r, timestamp := t, accessCount := 0 })] ∧
          (st.set k r t).maxSize = st.maxSize := by
        unfold CacheState.set
        simp [hmax0, hlook, hnotfull, mapAppend]
      have hrun : runOps st (((k, r, t) :: rest).map setOf)
          = runOps (st.set k r t) (rest.map setOf) := rfl
      rw [hrun]
      have hkeys' : (st.set k r t).entries.map Prod.fst
          = st.entries.map Prod.fst ++ [k] := by
        rw [hstep.1]
        simp
      have hnodup' : ((st.set k r t).entries.map Prod.fst ++ keysOf rest).Nodup := by
        rw [hkeys']
        simpa using hnodup
      have hlen' : (st.set k r t).entries.length + rest.length ≤ (st.set k r t).maxSize := by
        rw [hstep.2]
        have : (st.set k r t).entries.length = st.entries.length + 1 := by
          rw [hstep.1]
          simp
        rw [this]
        simp only [List.length_cons] at hlen
        omega
      obtain ⟨h1, h2⟩ := ih (st.set k r t) hnodup' hlen'
      refine ⟨?_, by rw [h2, hstep.2]⟩
      rw [h1, hkeys']
      simp [keysOf]

/-- From a key-trace equation, recover the concrete head entry. -/
theorem entries_cons_of_map_fst {st : CacheState} {k0 : String} {ks : List String}
    (h : st.entries.map Prod.fst = k0 :: ks) :
    ∃ e0 tail, st.entries = (k0, e0) :: tail ∧ tail.map Prod.fst = ks := by
  cases hent : st.entries with
  | nil => rw [hent] at h; simp at h
  | cons hd tail =>
      rw [hent] at h
      obtain ⟨hk, hks⟩ := List.cons.injEq _ _ _ _ ▸ h
      exact ⟨hd.2, tail, by rw [← hk], hks⟩

/-- Reading the oldest entry moves it to the most-recently-used end. -/
theorem get_head {st : CacheState} {k0 : String} {e0 : CacheEntry}
    {tail : List (String × CacheEntry)} (hent : st.entries = (k0, e0) :: tail)
    (tg : ℕ) :
    (st.get k0 tg).1.entries.map Prod.fst = tail.map Prod.fst ++ [k0] ∧
    (st.get k0 tg).1.maxSize = st.maxSize ∧
    (st.get k0 tg).1.entries.length = st.entries.length := by
  have hlook : mapLookup k0 st.entries = some e0 := by
    rw [hent]
    simp [mapLookup]
  have hdel : mapDelete k0 st.entries = tail := by
    rw [hent]
    simp [mapDelete]
  have hres : (st.get k0 tg).1 =
      { st with
          hits := st.hits + 1,
          entries := tail ++ [(k0, ⟨e0.response, tg, e0.accessCount + 1⟩)] } := by
    unfold CacheState.get
    rw [hlook]
    simp [mapAppend, hdel]
  rw [hres]
  refine ⟨by simp, by simp, ?_⟩
  simp [hent]

/-- Inserting a fresh key into a full cache whose oldest key is non-empty
evicts exactly that oldest key and appends the new one. -/
theorem set_full_fresh {st : CacheState} {k0 : String} {e0 : CacheEntry}
    {tail : List (String × CacheEntry)} (hent : st.entries = (k0, e0) :: tail)
    (hk0 : k0 ≠ "") (k : String) (r : HumorResponse) (t : ℕ)
    (hfresh : k ∉ st.entries.map Prod.fst)
    (hfull : st.entries.length ≥ st.maxSize) (hm0 : st.maxSize ≠ 0) :
    (st.set k r t).entries.map Prod.fst = tail.map Prod.fst ++ [k] := by
  have hlook : mapLookup k st.entries = none :=
    (mapLookup_eq_none_iff k st.entries).mpr hfresh
  have hev : st.evictLRU = { st with entries := tail } := by
    unfold CacheState.evictLRU
    rw [hent]
    simp [hk0]
  unfold CacheState.set
  rw [hlook]
  simp only [hm0, if_false, hfull, if_true, hev, mapAppend]
  simp

/-- Claim C4, counterexample: with capacity N = 1, the first key is read
before the second insertion yet is still the entry that gets evicted, so
the first key does not remain present. -/
theorem c4_counterexample :
    mapLookup "a" (runOps (CacheState.init 1)
      [CacheOp.set "a" ⟨some "x", 7/10, .local, false⟩ 0,
       CacheOp.get "a" 1,
       CacheOp.set "b" ⟨some "y", 7/10, .local, false⟩ 2]).entries = none := by
  decide

/-- Claim C4 (amended): for capacity N = frest.length + 1 ≥ 1 and
distinct non-empty keys: (1) after the N+1 insertions with no intervening
read, the first key is absent and all others are present; (2) when N ≥ 2
and the first key is read before the last insertion, the first key stays
present and the second-inserted key (least recently used at that point)
is the one evicted. -/
theorem c4_lru_eviction (f0 : String × HumorResponse × ℕ)
    (frest : List (String × HumorResponse × ℕ)) (lastI : String × HumorResponse × ℕ)
    (hnodup : (keysOf (f0 :: frest ++ [lastI])).Nodup)
    (hne : ∀ it ∈ f0 :: frest ++ [lastI], it.1 ≠ "") :
    (mapLookup f0.1 (runOps (CacheState.init (frest.length + 1))
        ((f0 :: frest ++ [lastI]).map setOf)).entries = none ∧
     ∀ it ∈ frest ++ [lastI],
       mapLookup it.1 (runOps (CacheState.init (frest.length + 1))
        ((f0 :: frest ++ [lastI]).map setOf)).entries ≠ none) ∧
    (∀ f1 frest', frest = f1 :: frest' → ∀ tg : ℕ,
      mapLookup f0.1 (runOps (CacheState.init (frest.length + 1))
        ((f0 :: frest).map setOf ++ [CacheOp.get f0.1 tg] ++ [setOf lastI])).entries ≠ none ∧
      mapLookup f1.1 (runOps (CacheState.init (frest.length + 1))
        ((f0 :: frest).map setOf ++ [CacheOp.get f0.1 tg] ++ [setOf lastI])).entries = none ∧
      ∀ it ∈ frest' ++ [lastI],
        mapLookup it.1 (runOps (CacheState.init (frest.length + 1))
          ((f0 :: frest).map setOf ++ [CacheOp.get f0.1 tg] ++ [setOf lastI])).entries ≠ none) := by
  have hkeq : keysOf (f0 :: frest ++ [lastI]) = f0.1 :: (keysOf frest ++ [lastI.1]) := by
    simp [keysOf]
  rw [hkeq] at hnodup
  have hf0notin : f0.1 ∉ keysOf frest ++ [lastI.1] := (List.nodup_cons.mp hnodup).1
  have hrestlast : (keysOf frest ++ [lastI.1]).Nodup := (List.nodup_cons.mp hnodup).2
  have hlastnotfrest : lastI.1 ∉ keysOf frest := by
    intro hc
    exact (List.disjoint_right.mp (List.nodup_append.mp hrestlast).2.2) (by simp) hc
  have hf0ne : f0.1 ≠ "" := hne f0 (by simp)
  -- state after inserting the front items
  have hkeysfront : keysOf (f0 :: frest) = f0.1 :: keysOf frest := by simp [keysOf]
  have hinitent : (CacheState.init (frest.length + 1)).entries = [] := rfl
  have hinitmax : (CacheState.init (frest.length + 1)).maxSize = frest.length + 1 := rfl
  have hnodfront : ((CacheState.init (frest.length + 1)).entries.map Prod.fst
      ++ keysOf (f0 :: frest)).Nodup := by
    rw [hinitent, hkeysfront]
    simp only [List.map_nil, List.nil_append]
    refine List.nodup_cons.mpr ⟨?_, (List.nodup_append.mp hrestlast).1⟩
    intro hc
    exact hf0notin (List.mem_append_left _ hc)
  have hlenfront : (CacheState.init (frest.length + 1)).entries.length
      + (f0 :: frest).length ≤ (CacheState.init (frest.length + 1)).maxSize := by
    rw [hinitent, hinitmax]
    simp
  have hfront := runSets_keys (f0 :: frest) (CacheState.init (frest.length + 1))
    hnodfront hlenfront
  obtain ⟨hkeys1, hmax1⟩ := hfront
  rw [hinitent] at hkeys1
  simp only [List.map_nil, List.nil_append] at hkeys1
  rw [hkeysfront] at hkeys1
  obtain ⟨e0, tail, hent1, htail⟩ := entries_cons_of_map_fst hkeys1
  have hlen1 : (runOps (CacheState.init (frest.length + 1))
      ((f0 :: frest).map setOf)).entries.length = frest.length + 1 := by
    have h := congrArg List.length hkeys1
    simp only [List.length_map, List.length_cons, keysOf] at h
    simpa using h
  have hmax1' : (runOps (CacheState.init (frest.length + 1))
      ((f0 :: frest).map setOf)).maxSize = frest.length + 1 := by
    rw [hmax1, hinitmax]
  constructor
  · -- part 1: no intervening read
    have hsplit : (f0 :: frest ++ [lastI]).map setOf
        = (f0 :: frest).map setOf ++ [setOf lastI] := by simp
    rw [hsplit, runOps_append]
    have hfresh : lastI.1 ∉ (runOps (CacheState.init (frest.length + 1))
        ((f0 :: frest).map setOf)).entries.map Prod.fst := by
      rw [hkeys1]
      intro hc
      rcases List.mem_cons.mp hc with h | h
      · exact hf0notin (h ▸ List.mem_append_right _ (by simp))
      · exact hlastnotfrest h
    have hset := set_full_fresh hent1 hf0ne lastI.1 lastI.2.1 lastI.2.2 hfresh
      (by rw [hlen1, hmax1']) (by rw [hmax1']; omega)
    have hrun1 : runOps (runOps (CacheState.init (frest.length + 1))
        ((f0 :: frest).map setOf)) [setOf lastI]
        = (runOps (CacheState.init (frest.length + 1))
        ((f0 :: frest).map setOf)).set lastI.1 lastI.2.1 lastI.2.2 := rfl
    rw [hrun1]
    constructor
    · rw [mapLookup_eq_none_iff, hset, htail]
      intro hc
      exact hf0notin hc
    · intro it hit
      apply mapLookup_ne_none_of_mem
      rw [hset, htail]
      rcases List.mem_append.mp hit with h | h
      · exact List.mem_append_left _ (List.mem_map_of_mem _ h)
      · simp at h
        simp [h]
  · -- part 2: first key read before the last insertion
    intro f1 frest' hfrest tg
    have hget := get_head hent1 tg
    obtain ⟨hkeys2, hmax2, hlen2⟩ := hget
    rw [htail] at hkeys2
    have hkeysfrest : keysOf frest = f1.1 :: keysOf frest' := by
      rw [hfrest]; simp [keysOf]
    rw [hkeysfrest] at hkeys2
    have hkeys2' : ((runOps (CacheState.init (frest.length + 1))
        ((f0 :: frest).map setOf)).get f0.1 tg).1.entries.map Prod.fst
        = f1.1 :: (keysOf frest' ++ [f0.1]) := by
      rw [hkeys2]; simp
    obtain ⟨e1, tail2, hent2, htail2⟩ := entries_cons_of_map_fst hkeys2'
    have hf1ne : f1.1 ≠ "" := hne f1 (by simp [hfrest])
    have hfresh2 : lastI.1 ∉ ((runOps (CacheState.init (frest.length + 1))
        ((f0 :: frest).map setOf)).get f0.1 tg).1.entries.map Prod.fst := by
      rw [hkeys2']
      intro hc
      rcases List.mem_cons.mp hc with h | h
      · exact hlastnotfrest (by rw [hkeysfrest]; simp [h])
      · rcases List.mem_append.mp h with h | h
        · exact hlastnotfrest (by rw [hkeysfrest]; simp; right; exact h)
        · simp at h
          exact hf0notin (by simp [h])
    have hset2 := set_full_fresh hent2 hf1ne lastI.1 lastI.2.1 lastI.2.2 hfresh2
      (by
        have : ((runOps (CacheState.init (frest.length + 1))
            ((f0 :: frest).map setOf)).get f0.1 tg).1.entries.length
            = frest.length + 1 := by rw [hlen2, hlen1]
        rw [this, hmax2, hmax1'])
      (by rw [hmax2, hmax1']; omega)
    have hrun2 : runOps (CacheState.init (frest.length + 1))
        ((f0 :: frest).map setOf ++ [CacheOp.get f0.1 tg] ++ [setOf lastI])
        = (((runOps (CacheState.init (frest.length + 1))
            ((f0 :: frest).map setOf)).get f0.1 tg).1).set lastI.1 lastI.2.1 lastI.2.2 := by
      rw [runOps_append, runOps_append]
      rfl
    rw [hrun2]
    have hf1notin : f1.1 ∉ keysOf frest' ++ [f0.1] ++ [lastI.1] := by
      have hnods : (keysOf frest).Nodup := (List.nodup_append.mp hrestlast).1
      rw [hkeysfrest] at hnods
      have hf1notfrest' : f1.1 ∉ keysOf frest' := (List.nodup_cons.mp hnods).1
      intro hc
      rcases List.mem_append.mp hc with h | h
      · rcases List.mem_append.mp h with h | h
        · exact hf1notfrest' h
        · simp at h
          exact hf0notin (by rw [hkeysfrest]; simp [h])
      · simp at h
        exact hlastnotfrest (by rw [hkeysfrest]; simp [h])
    refine ⟨?_, ?_, ?_⟩
    · apply mapLookup_ne_none_of_mem
      rw [hset2, htail2]
      simp
    · rw [mapLookup_eq_none_iff, hset2, htail2]
      intro hc
      exact hf1notin (by simpa using hc)
    · intro it hit
      apply mapLookup_ne_none_of_mem
      rw [hset2, htail2]
      rcases List.mem_append.mp hit with h | h
      · exact List.mem_append_left _ (List.mem_append_left _ (List.mem_map_of_mem _ h))
      · simp at h
        simp [h]

/-- Witness for c4_lru_eviction at keys a, b, c with capacity 2. -/
theorem c4_lru_eviction_witness :
    (keysOf (("a", (⟨some "w", 7/10, .local, false⟩ : HumorResponse), (0 : ℕ))
        :: [("b", (⟨some "w", 7/10, .local, false⟩ : HumorResponse), (1 : ℕ))]
        ++ [("c", (⟨some "w", 7/10, .local, false⟩ : HumorResponse), (2 : ℕ))])).Nodup ∧
    mapLookup "a" (runOps
      (CacheState.init ([("b", (⟨some "w", 7/10, .local, false⟩ : HumorResponse), (1 : ℕ))].length + 1))
      ((("a", (⟨some "w", 7/10, .local, false⟩ : HumorResponse), (0 : ℕ))
        :: [("b", (⟨some "w", 7/10, .local, false⟩ : HumorResponse), (1 : ℕ))]
        ++ [("c", (⟨some "w", 7/10, .local, false⟩ : HumorResponse), (2 : ℕ))]).map setOf)).entries = none := by
  refine ⟨by decide, ?_⟩
  exact (c4_lru_eviction ("a", (⟨some "w", 7/10, .local, false⟩ : HumorResponse), (0 : ℕ))
    [("b", (⟨some "w", 7/10, .local, false⟩ : HumorResponse), (1 : ℕ))]
    ("c", (⟨some "w", 7/10, .local, false⟩ : HumorResponse), (2 : ℕ))
    (by decide) (by decide)).1.1

/-! ### Claim C9: hit-rate statistics -/

/-- Whether an operation is a get. -/
def isGet : CacheOp → Bool
  | .get _ _ => true
  | _ => false

theorem evictLRU_counters (st : CacheState) :
    st.evictLRU.hits = st.hits ∧ st.evictLRU.misses = st.misses := by
  unfold CacheState.evictLRU
  cases st.entries with
  | nil => exact ⟨rfl, rfl⟩
  | cons hd rest => by_cases h : hd.1 = "" <;> simp [h]

theorem evictLoop_counters (fuel : ℕ) (st : CacheState) :
    (evictLoop fuel st).hits = st.hits ∧ (evictLoop fuel st).misses = st.misses := by
  induction fuel generalizing st with
  | zero => exact ⟨rfl, rfl⟩
  | succ n ih =>
      unfold evictLoop
      by_cases h : st.entries.length > st.maxSize
      · simp only [h, if_true]
        obtain ⟨h1, h2⟩ := ih st.evictLRU
        obtain ⟨h3, h4⟩ := evictLRU_counters st
        exact ⟨h1.trans h3, h2.trans h4⟩
      · simp [h]

/-- Operations other than get keep zeroed hit and miss counters at zero. -/
theorem zeroCounters_runOps {st : CacheState} {ops : List CacheOp}
    (h : st.hits = 0 ∧ st.misses = 0) (hops : ∀ op ∈ ops, isGet op = false) :
    (runOps st ops).hits = 0 ∧ (runOps st ops).misses = 0 := by
  induction ops generalizing st with
  | nil => exact h
  | cons op rest ih =>
      have hop := hops op (by simp)
      have hstep : (applyOp st op).hits = 0 ∧ (applyOp st op).misses = 0 := by
        cases op with
        | set k r now =>
            show (st.set k r now).hits = 0 ∧ (st.set k r now).misses = 0
            unfold CacheState.set
            by_cases h0 : st.maxSize = 0
            · simp [h0, h]
            · simp only [h0, if_false]
              cases mapLookup k st.entries with
              | some existing => simpa using h
              | none =>
                  by_cases hfull : st.entries.length ≥ st.maxSize
                  · obtain ⟨h3, h4⟩ := evictLRU_counters st
                    simp [hfull, h3, h4, h]
                  · simp [hfull, h]
        | get k now => simp [isGet] at hop
        | setMaxSize n =>
            show (st.setMaxSize n).hits = 0 ∧ (st.setMaxSize n).misses = 0
            unfold CacheState.setMaxSize
            obtain ⟨h1, h2⟩ := evictLoop_counters st.entries.length
              { st with maxSize := n }
            rw [h1, h2]
            exact h
        | cleanup now maxAge => simpa [CacheState.cleanup] using h
        | clear => exact ⟨rfl, rfl⟩
      exact ih hstep (fun o ho => hops o (by simp [ho]))

/-- The second component of getStats, written with rational division. -/
theorem getStats_snd (st : CacheState) :
    st.getStats.2 = ((jsRound ((if st.hits + st.misses > 0
      then (st.hits : ℚ) / ((st.hits + st.misses : ℕ) : ℚ) else 0) * 100) : ℤ) : ℚ) / 100 := by
  show mkRat (jsRound ((if st.hits + st.misses > 0
      then mkRat st.hits (st.hits + st.misses) else 0) * 100)) 100 = _
  have hif : (if st.hits + st.misses > 0
        then (mkRat st.hits (st.hits + st.misses) : ℚ) else 0)
      = (if st.hits + st.misses > 0
        then (st.hits : ℚ) / ((st.hits + st.misses : ℕ) : ℚ) else 0) := by
    by_cases h : st.hits + st.misses > 0
    · simp only [h, if_true]
      rw [Rat.mkRat_eq_div]
      push_cast
      ring
    · simp [h]
  rw [hif, Rat.mkRat_eq_div]
  norm_num

theorem getStats_zero {st : CacheState} (h1 : st.hits = 0) (h2 : st.misses = 0) :
    st.getStats.2 = 0 := by
  rw [getStats_snd, h1, h2]
  have hj : jsRound ((if 0 + 0 > 0 then ((0 : ℕ) : ℚ) / (((0 + 0 : ℕ)) : ℚ) else 0) * 100)
      = 0 := by
    have hc : (if 0 + 0 > 0 then ((0 : ℕ) : ℚ) / (((0 + 0 : ℕ)) : ℚ) else 0) = 0 := by
      norm_num
    rw [hc]
    show Rat.floor (0 * 100 + mkRat 1 2) = 0
    have : (0 : ℚ) * 100 + mkRat 1 2 = mkRat 1 2 := by
      rw [Rat.mkRat_eq_div]
      norm_num
    rw [this]
    rfl
  rw [hj]
  norm_num

/-- Claim C9, counterexample: after 1 hit and 2 misses the reported hit
rate is 0.33, which is not exactly hits divided by (hits + misses). -/
theorem c9_counterexample :
    (runOps (CacheState.init 5)
      [CacheOp.set "k" ⟨some "x", 9/10, .api, false⟩ 0,
       CacheOp.get "k" 1, CacheOp.get "x" 2, CacheOp.get "y" 3]).hits = 1 ∧
    (runOps (CacheState.init 5)
      [CacheOp.set "k" ⟨some "x", 9/10, .api, false⟩ 0,
       CacheOp.get "k" 1, CacheOp.get "x" 2, CacheOp.get "y" 3]).misses = 2 ∧
    (runOps (CacheState.init 5)
      [CacheOp.set "k" ⟨some "x", 9/10, .api, false⟩ 0,
       CacheOp.get "k" 1, CacheOp.get "x" 2, CacheOp.get "y" 3]).getStats.2
      ≠ (1 : ℚ) / 3 := by
  refine ⟨by decide, by decide, ?_⟩
  rw [getStats_snd]
  have hh : (runOps (CacheState.init 5)
      [CacheOp.set "k" ⟨some "x", 9/10, .api, false⟩ 0,
       CacheOp.get "k" 1, CacheOp.get "x" 2, CacheOp.get "y" 3]).hits = 1 := by decide
  have hm : (runOps (CacheState.init 5)
      [CacheOp.set "k" ⟨some "x", 9/10, .api, false⟩ 0,
       CacheOp.get "k" 1, CacheOp.get "x" 2, CacheOp.get "y" 3]).misses = 2 := by decide
  rw [hh, hm]
  have hc : (if 1 + 2 > 0 then ((1 : ℕ) : ℚ) / (((1 + 2 : ℕ)) : ℚ) else 0) * 100
      = mkRat 100 3 := by
    rw [Rat.mkRat_eq_div]
    norm_num
  rw [hc]
  have hj : jsRound (mkRat 100 3) = 33 := by
    show Rat.floor (mkRat 100 3 + mkRat 1 2) = 33
    have hsum : (mkRat 100 3 : ℚ) + mkRat 1 2 = mkRat 203 6 := by
      rw [Rat.mkRat_eq_div, Rat.mkRat_eq_div, Rat.mkRat_eq_div]
      norm_num
    rw [hsum]
    rfl
  rw [hj]
  norm_num

/-- Claim C9 (amended): getStats returns the hit rate rounded (JS
Math.round, half toward +infinity) to two decimal places from
hits / (hits + misses), and exactly 0 when no get has been performed
since construction or since the last clear. -/
theorem c9_hit_rate (m : ℕ) (ops : List CacheOp) :
    ((runOps (CacheState.init m) ops).getStats.2 =
      ((jsRound ((if (runOps (CacheState.init m) ops).hits
            + (runOps (CacheState.init m) ops).misses > 0
          then ((runOps (CacheState.init m) ops).hits : ℚ)
            / (((runOps (CacheState.init m) ops).hits
                + (runOps (CacheState.init m) ops).misses : ℕ) : ℚ)
          else 0) * 100) : ℤ) : ℚ) / 100) ∧
    ((∀ op ∈ ops, isGet op = false) →
      (runOps (CacheState.init m) ops).getStats.2 = 0) ∧
    (∀ ops2 : List CacheOp, (∀ op ∈ ops2, isGet op = false) →
      (runOps (CacheState.init m) (ops ++ CacheOp.clear :: ops2)).getStats.2 = 0) := by
  refine ⟨getStats_snd _, ?_, ?_⟩
  · intro hops
    obtain ⟨h1, h2⟩ := @zeroCounters_runOps (CacheState.init m) ops ⟨rfl, rfl⟩ hops
    exact getStats_zero h1 h2
  · intro ops2 hops2
    rw [runOps_append]
    have hclear : runOps (runOps (CacheState.init m) ops) (CacheOp.clear :: ops2)
        = runOps ((runOps (CacheState.init m) ops).clear) ops2 := rfl
    rw [hclear]
    obtain ⟨h1, h2⟩ := @zeroCounters_runOps ((runOps (CacheState.init m) ops).clear)
      ops2 ⟨rfl, rfl⟩ hops2
    exact getStats_zero h1 h2

/-- Witness for c9_hit_rate at a concrete operation list. -/
theorem c9_hit_rate_witness :
    (∀ op ∈ ([CacheOp.clear] : List CacheOp), isGet op = false) ∧
    (runOps (CacheState.init 1) [CacheOp.clear]).getStats.2 = 0 := by
  have hops : ∀ op ∈ ([CacheOp.clear] : List CacheOp), isGet op = false := by
    intro op hop
    simp at hop
    subst hop
    rfl
  exact ⟨hops, (c9_hit_rate 1 [CacheOp.clear]).2.1 hops⟩

/-! ### Client lemmas (claims C2, C7, C8) -/

theorem updateRateLimitInfo_hasClient (st : ClientState) (now : ℕ) :
    (st.updateRateLimitInfo now).hasClient = st.hasClient := by
  by_cases h : now ≥ st.rateResetTime <;> simp [ClientState.updateRateLimitInfo, h]

theorem makeApiCall_fst_thrown (st : ClientState) (now : ℕ) (m : String) :
    (makeApiCall st now (TransportOutcome.thrown m)).1 = st := by
  unfold makeApiCall
  split <;> rfl

theorem makeApiCall_fst_reply (st : ClientState) (now : ℕ) (b : Option String)
    (hc : st.hasClient = true) :
    (makeApiCall st now (TransportOutcome.reply b)).1 = st.updateRateLimitInfo now := by
  unfold makeApiCall
  rw [hc]
  simp only [Bool.true_eq_false, if_false]
  cases b with
  | none => rfl
  | some t => cases hv : validateAndFormatResponse t <;> simp [hv]

theorem attemptLoop_calls_mono (now : ℕ) (outcomes : ℕ → TransportOutcome) :
    ∀ remaining attempt (st : ClientState) calls delays,
    calls ≤ (attemptLoop now outcomes remaining attempt st calls delays).2.2.1 := by
  intro remaining
  induction remaining with
  | zero => intro attempt st calls delays; exact Nat.le_refl _
  | succ n ih =>
      intro attempt st calls delays
      unfold attemptLoop
      cases hm : makeApiCall st now (outcomes attempt) with
      | mk st1 r =>
          cases r with
          | ok humor =>
              show calls ≤ calls + (if st.hasClient then 1 else 0)
              exact Nat.le_add_right _ _
          | error msg =>
              by_cases hn : n = 0
              · simp only [hn, if_true]
                exact Nat.le_add_right _ _
              · simp only [hn, if_false]
                calc calls ≤ calls + (if st.hasClient then 1 else 0) :=
                      Nat.le_add_right _ _
                  _ ≤ _ := ih _ _ _ _

theorem attemptLoop_calls_ge (now : ℕ) (outcomes : ℕ → TransportOutcome) :
    ∀ remaining attempt (st : ClientState) calls delays,
    st.hasClient = true → 1 ≤ remaining →
    calls + 1 ≤ (attemptLoop now outcomes remaining attempt st calls delays).2.2.1 := by
  intro remaining
  cases remaining with
  | zero => intro _ _ _ _ hc h; omega
  | succ n =>
      intro attempt st calls delays hc _
      unfold attemptLoop
      cases hm : makeApiCall st now (outcomes attempt) with
      | mk st1 r =>
          cases r with
          | ok humor =>
              show calls + 1 ≤ calls + (if st.hasClient then 1 else 0)
              simp [hc]
          | error msg =>
              by_cases hn : n = 0
              · simp only [hn, if_true]
                simp [hc]
              · simp only [hn, if_false]
                set x := (if st.hasClient then 1 else 0) with hx
                have hmono := attemptLoop_calls_mono now outcomes n (attempt + 1) st1
                  (calls + x) (delays ++ [baseDelay * 2 ^ (attempt - 1)])
                have hx1 : x = 1 := by rw [hx]; simp [hc]
                omega

theorem attemptLoop_calls_le (now : ℕ) (outcomes : ℕ → TransportOutcome) :
    ∀ remaining attempt (st : ClientState) calls delays,
    (attemptLoop now outcomes remaining attempt st calls delays).2.2.1
      ≤ calls + remaining := by
  intro remaining
  induction remaining with
  | zero => intro attempt st calls delays; simp [attemptLoop]
  | succ n ih =>
      intro attempt st calls delays
      unfold attemptLoop
      cases hm : makeApiCall st now (outcomes attempt) with
      | mk st1 r =>
          cases r with
          | ok humor =>
              show calls + (if st.hasClient then 1 else 0) ≤ calls + (n + 1)
              split <;> omega
          | error msg =>
              by_cases hn : n = 0
              · simp only [hn, if_true]
                show calls + (if st.hasClient then 1 else 0) ≤ calls + (0 + 1)
                split <;> omega
              · simp only [hn, if_false]
                set x := (if st.hasClient then 1 else 0) with hx
                have := ih (attempt + 1) st1 (calls + x)
                  (delays ++ [baseDelay * 2 ^ (attempt - 1)])
                have hx1 : x ≤ 1 := by rw [hx]; split <;> omega
                omega

theorem clientBody_calls_le (st : ClientState) (now : ℕ)
    (outcomes : ℕ → TransportOutcome) :
    (clientBody st now outcomes).transportCalls ≤ maxRetries := by
  unfold clientBody
  split
  · exact Nat.zero_le _
  · split
    · exact Nat.zero_le _
    · simpa using attemptLoop_calls_le now outcomes maxRetries 1 st 0 []

/-- Worst-case transport usage: no call makes more than maxRetries
transport invocations. -/
theorem generateHumor_calls_le (st : ClientState) (now : ℕ)
    (outcomes : ℕ → TransportOutcome) :
    (st.generateHumor now outcomes).transportCalls ≤ maxRetries := by
  unfold ClientState.generateHumor
  split
  · split
    · exact clientBody_calls_le _ _ _
    · exact Nat.zero_le _
  · exact clientBody_calls_le _ _ _

theorem makeApiCall_thrown_eq (st : ClientState) (now : ℕ) (m : String)
    (hc : st.hasClient = true) :
    makeApiCall st now (TransportOutcome.thrown m) = (st, Except.error m) := by
  unfold makeApiCall
  simp [hc]

theorem attemptLoop_thrown_cont (now : ℕ) (outcomes : ℕ → TransportOutcome)
    (k attempt : ℕ) (st : ClientState) (calls : ℕ) (delays : List ℕ) (m : String)
    (h : outcomes attempt = TransportOutcome.thrown m) (hc : st.hasClient = true)
    (hk : k ≠ 0) :
    attemptLoop now outcomes (k + 1) attempt st calls delays
      = attemptLoop now outcomes k (attempt + 1) st (calls + 1)
          (delays ++ [baseDelay * 2 ^ (attempt - 1)]) := by
  have e := makeApiCall_thrown_eq st now m hc
  simp only [attemptLoop, h, e, hc, if_true, hk, if_false]

theorem attemptLoop_thrown_last (now : ℕ) (outcomes : ℕ → TransportOutcome)
    (attempt : ℕ) (st : ClientState) (calls : ℕ) (delays : List ℕ) (m : String)
    (h : outcomes attempt = TransportOutcome.thrown m) (hc : st.hasClient = true) :
    attemptLoop now outcomes (0 + 1) attempt st calls delays
      = (st.onFailure now, ⟨false, none, some m⟩, calls + 1, delays) := by
  have e := makeApiCall_thrown_eq st now m hc
  simp only [attemptLoop, h, e, hc, if_true]

theorem isAvailable_hasClient {st : ClientState} (hav : st.isAvailable = true) :
    st.hasClient = true := by
  unfold ClientState.isAvailable at hav
  exact ((Bool.and_eq_true _ _).mp hav).1

/-- A call in which all three transport attempts throw: the state goes
through onFailure, the last message is reported, three transport
invocations happen, and the two exponential backoff delays are awaited. -/
theorem generateHumor_allThrown (st : ClientState) (now : ℕ)
    (outcomes : ℕ → TransportOutcome) (m1 m2 m3 : String)
    (h1 : outcomes 1 = TransportOutcome.thrown m1)
    (h2 : outcomes 2 = TransportOutcome.thrown m2)
    (h3 : outcomes 3 = TransportOutcome.thrown m3)
    (hbr : st.breaker ≠ CircuitBreakerState.opened)
    (hav : st.isAvailable = true)
    (hrate : ¬(st.rateRemaining = 0 ∧ now < st.rateResetTime)) :
    st.generateHumor now outcomes =
      { state := st.onFailure now
        result := ⟨false, none, some m3⟩
        transportCalls := 3
        delays := [baseDelay, baseDelay * 2]
        breakerEntered := st.breaker } := by
  have hc : st.hasClient = true := isAvailable_hasClient hav
  have hloop : attemptLoop now outcomes 3 1 st 0 []
      = (st.onFailure now, ⟨false, none, some m3⟩, 3, [baseDelay, baseDelay * 2]) := by
    rw [show (3 : ℕ) = 2 + 1 from rfl,
      attemptLoop_thrown_cont now outcomes 2 1 st 0 [] m1 h1 hc (by norm_num),
      show (2 : ℕ) = 1 + 1 from rfl,
      attemptLoop_thrown_cont now outcomes 1 2 st 1 _ m2 h2 hc (by norm_num),
      show (1 : ℕ) = 0 + 1 from rfl,
      attemptLoop_thrown_last now outcomes 3 st 2 _ m3 h3 hc]
    norm_num
  unfold ClientState.generateHumor
  rw [if_neg hbr]
  unfold clientBody
  rw [if_neg (by simp [hav] : ¬ st.isAvailable = false), if_neg hrate]
  show ({ state := (attemptLoop now outcomes maxRetries 1 st 0 []).1
          result := (attemptLoop now outcomes maxRetries 1 st 0 []).2.1
          transportCalls := (attemptLoop now outcomes maxRetries 1 st 0 []).2.2.1
          delays := (attemptLoop now outcomes maxRetries 1 st 0 []).2.2.2
          breakerEntered := st.breaker } : CallTrace) = _
  rw [show maxRetries = 3 from rfl, hloop]

theorem onFailure_fields (s : ClientState) (now : ℕ) :
    (s.onFailure now).hasClient = s.hasClient ∧
    (s.onFailure now).apiKey = s.apiKey ∧
    (s.onFailure now).rateRemaining = s.rateRemaining ∧
    (s.onFailure now).rateResetTime = s.rateResetTime ∧
    (s.onFailure now).failureCount = s.failureCount + 1 ∧
    (s.onFailure now).lastFailureTime = some now := by
  unfold ClientState.onFailure
  dsimp only
  split <;> simp

theorem onFailure_isAvailable (s : ClientState) (now : ℕ) :
    (s.onFailure now).isAvailable = s.isAvailable := by
  unfold ClientState.onFailure ClientState.isAvailable
  dsimp only
  split <;> simp

theorem onFailure_breaker_stay (s : ClientState) (now : ℕ)
    (h : s.failureCount + 1 < maxFailures) :
    (s.onFailure now).breaker = s.breaker := by
  unfold ClientState.onFailure
  dsimp only
  rw [if_neg (by simpa using Nat.not_le.mpr h)]

theorem onFailure_breaker_open (s : ClientState) (now : ℕ)
    (h : s.failureCount + 1 ≥ maxFailures) :
    (s.onFailure now).breaker = CircuitBreakerState.opened := by
  unfold ClientState.onFailure
  dsimp only
  rw [if_pos (by simpa using h)]

theorem runCalls_cons (st : ClientState) (now : ℕ) (o : ℕ → TransportOutcome)
    (rest : List (ℕ × (ℕ → TransportOutcome))) :
    runCalls st ((now, o) :: rest) = runCalls (st.generateHumor now o).state rest := rfl

/-- Claim C2: after 5 consecutive all-failing calls the breaker is open
and the next call (within the cooldown) fails without touching the
transport; and whenever the breaker is open and the 60000 ms cooldown
since the last failure has elapsed, the next call enters the retry loop
in the half-open state and invokes the transport. -/
theorem c2_circuit_breaker (s0 : ClientState) (t1 t2 t3 t4 t5 t6 : ℕ)
    (o1 o2 o3 o4 o5 o6 : ℕ → TransportOutcome) (e1 e2 e3 e4 e5 : ℕ → String)
    (ho1 : ∀ i, o1 i = TransportOutcome.thrown (e1 i))
    (ho2 : ∀ i, o2 i = TransportOutcome.thrown (e2 i))
    (ho3 : ∀ i, o3 i = TransportOutcome.thrown (e3 i))
    (ho4 : ∀ i, o4 i = TransportOutcome.thrown (e4 i))
    (ho5 : ∀ i, o5 i = TransportOutcome.thrown (e5 i))
    (hbr : s0.breaker = CircuitBreakerState.closed) (hfc : s0.failureCount = 0)
    (hav : s0.isAvailable = true) (hrate : s0.rateRemaining ≠ 0)
    (ht6 : t6 < t5 + circuitBreakerTimeout) :
    (runCalls s0 [(t1, o1), (t2, o2), (t3, o3), (t4, o4), (t5, o5)]).breaker
        = CircuitBreakerState.opened ∧
    (runCalls s0 [(t1, o1), (t2, o2), (t3, o3), (t4, o4), (t5, o5)]).failureCount = 5 ∧
    ((runCalls s0 [(t1, o1), (t2, o2), (t3, o3), (t4, o4), (t5, o5)]).generateHumor
        t6 o6).result.success = false ∧
    ((runCalls s0 [(t1, o1), (t2, o2), (t3, o3), (t4, o4), (t5, o5)]).generateHumor
        t6 o6).transportCalls = 0 ∧
    (∀ (s : ClientState) (tf now : ℕ) (o : ℕ → TransportOutcome),
      s.breaker = CircuitBreakerState.opened → s.lastFailureTime = some tf →
      now - tf ≥ circuitBreakerTimeout → s.isAvailable = true →
      ¬(s.rateRemaining = 0 ∧ now < s.rateResetTime) →
      (s.generateHumor now o).breakerEntered = CircuitBreakerState.halfOpen ∧
      1 ≤ (s.generateHumor now o).transportCalls) := by
  have step : ∀ (s : ClientState) (t : ℕ) (o : ℕ → TransportOutcome)
      (e : ℕ → String), (∀ i, o i = TransportOutcome.thrown (e i)) →
      s.breaker = CircuitBreakerState.closed → s.isAvailable = true →
      s.rateRemaining ≠ 0 →
      (s.generateHumor t o).state = s.onFailure t := by
    intro s t o e ho hb ha hr
    rw [generateHumor_allThrown s t o (e 1) (e 2) (e 3) (ho 1) (ho 2) (ho 3)
      (by rw [hb]; intro hcon; cases hcon) ha
      (by intro hcon; exact hr hcon.1)]
  -- state after call 1
  set s1 := s0.onFailure t1 with hs1
  obtain ⟨c1, k1, r1, rt1, f1, l1⟩ := onFailure_fields s0 t1
  have a1 : s1.isAvailable = true := by rw [hs1, onFailure_isAvailable]; exact hav
  have b1 : s1.breaker = CircuitBreakerState.closed := by
    rw [hs1, onFailure_breaker_stay s0 t1 (by rw [hfc]; norm_num [maxFailures])]
    exact hbr
  have q1 : s1.rateRemaining ≠ 0 := by rw [hs1, r1]; exact hrate
  have fc1 : s1.failureCount = 1 := by rw [hs1, f1, hfc]
  set s2 := s1.onFailure t2 with hs2
  obtain ⟨c2, k2, r2, rt2, f2, l2⟩ := onFailure_fields s1 t2
  have a2 : s2.isAvailable = true := by rw [hs2, onFailure_isAvailable]; exact a1
  have b2 : s2.breaker = CircuitBreakerState.closed := by
    rw [hs2, onFailure_breaker_stay s1 t2 (by rw [fc1]; norm_num [maxFailures])]
    exact b1
  have q2 : s2.rateRemaining ≠ 0 := by rw [hs2, r2]; exact q1
  have fc2 : s2.failureCount = 2 := by rw [hs2, f2, fc1]
  set s3 := s2.onFailure t3 with hs3
  obtain ⟨c3, k3, r3, rt3, f3, l3⟩ := onFailure_fields s2 t3
  have a3 : s3.isAvailable = true := by rw [hs3, onFailure_isAvailable]; exact a2
  have b3 : s3.breaker = CircuitBreakerState.closed := by
    rw [hs3, onFailure_breaker_stay s2 t3 (by rw [fc2]; norm_num [maxFailures])]
    exact b2
  have q3 : s3.rateRemaining ≠ 0 := by rw [hs3, r3]; exact q2
  have fc3 : s3.failureCount = 3 := by rw [hs3, f3, fc2]
  set s4 := s3.onFailure t4 with hs4
  obtain ⟨c4, k4, r4, rt4, f4, l4⟩ := onFailure_fields s3 t4
  have a4 : s4.isAvailable = true := by rw [hs4, onFailure_isAvailable]; exact a3
  have b4 : s4.breaker = CircuitBreakerState.closed := by
    rw [hs4, onFailure_breaker_stay s3 t4 (by rw [fc3]; norm_num [maxFailures])]
    exact b3
  have q4 : s4.rateRemaining ≠ 0 := by rw [hs4, r4]; exact q3
  have fc4 : s4.failureCount = 4 := by rw [hs4, f4, fc3]
  set s5 := s4.onFailure t5 with hs5
  obtain ⟨c5, k5, r5, rt5, f5, l5⟩ := onFailure_fields s4 t5
  have b5 : s5.breaker = CircuitBreakerState.opened := by
    rw [hs5, onFailure_breaker_open s4 t5 (by rw [fc4]; norm_num [maxFailures])]
  have fc5 : s5.failureCount = 5 := by rw [hs5, f5, fc4]
  have hlf5 : s5.lastFailureTime = some t5 := by rw [hs5, l5]
  have hrun : runCalls s0 [(t1, o1), (t2, o2), (t3, o3), (t4, o4), (t5, o5)] = s5 := by
    rw [runCalls_cons, step s0 t1 o1 e1 ho1 hbr hav hrate, ← hs1,
        runCalls_cons, step s1 t2 o2 e2 ho2 b1 a1 q1, ← hs2,
        runCalls_cons, step s2 t3 o3 e3 ho3 b2 a2 q2, ← hs3,
        runCalls_cons, step s3 t4 o4 e4 ho4 b3 a3 q3, ← hs4,
        runCalls_cons, step s4 t5 o5 e5 ho5 b4 a4 q4, ← hs5]
    rfl
  have hshort : ∀ s : ClientState, s.breaker = CircuitBreakerState.opened →
      s.lastFailureTime = some t5 →
      (s.generateHumor t6 o6).result.success = false ∧
      (s.generateHumor t6 o6).transportCalls = 0 := by
    intro s hb hl
    unfold ClientState.generateHumor
    rw [if_pos hb]
    have hres : s.shouldAttemptReset t6 = false := by
      unfold ClientState.shouldAttemptReset
      rw [hl]
      simp only [decide_eq_false_iff_not]
      unfold circuitBreakerTimeout at ht6 ⊢
      omega
    rw [hres]
    exact ⟨rfl, rfl⟩
  refine ⟨by rw [hrun]; exact b5, by rw [hrun]; exact fc5,
    by rw [hrun]; exact (hshort s5 b5 hlf5).1,
    by rw [hrun]; exact (hshort s5 b5 hlf5).2, ?_⟩
  intro s tf now o hsbr hlf hcool hsav hsrate
  unfold ClientState.generateHumor
  rw [if_pos hsbr]
  have hres : s.shouldAttemptReset now = true := by
    unfold ClientState.shouldAttemptReset
    rw [hlf]
    simpa using hcool
  rw [if_pos hres]
  unfold clientBody
  have hsav' : ({ s with breaker := CircuitBreakerState.halfOpen }
      : ClientState).isAvailable = true := by
    unfold ClientState.isAvailable at hsav ⊢
    simpa using hsav
  rw [if_neg (by simp [hsav'] : ¬ ({ s with breaker := CircuitBreakerState.halfOpen }
      : ClientState).isAvailable = false)]
  rw [if_neg (by simpa using hsrate)]
  refine ⟨rfl, ?_⟩
  have hc : ({ s with breaker := CircuitBreakerState.halfOpen }
      : ClientState).hasClient = true := isAvailable_hasClient hsav'
  have := attemptLoop_calls_ge now o maxRetries 1
    { s with breaker := CircuitBreakerState.halfOpen } 0 [] hc
    (by norm_num [maxRetries])
  simpa using this

/-- Witness for c2_circuit_breaker at a concrete starting state. -/
theorem c2_circuit_breaker_witness :
    ((⟨true, some "k", 100, 0, 100, CircuitBreakerState.closed, 0, none⟩
        : ClientState).breaker = CircuitBreakerState.closed ∧
     (⟨true, some "k", 100, 0, 100, CircuitBreakerState.closed, 0, none⟩
        : ClientState).isAvailable = true ∧
     (5 : ℕ) < 4 + circuitBreakerTimeout) ∧
    (runCalls (⟨true, some "k", 100, 0, 100, CircuitBreakerState.closed, 0, none⟩
        : ClientState)
      [(0, fun _ => TransportOutcome.thrown "x"),
       (1, fun _ => TransportOutcome.thrown "x"),
       (2, fun _ => TransportOutcome.thrown "x"),
       (3, fun _ => TransportOutcome.thrown "x"),
       (4, fun _ => TransportOutcome.thrown "x")]).breaker
      = CircuitBreakerState.opened := by
  refine ⟨⟨rfl, rfl, by norm_num [circuitBreakerTimeout]⟩, ?_⟩
  exact (c2_circuit_breaker
    (⟨true, some "k", 100, 0, 100, CircuitBreakerState.closed, 0, none⟩ : ClientState)
    0 1 2 3 4 5
    (fun _ => TransportOutcome.thrown "x") (fun _ => TransportOutcome.thrown "x")
    (fun _ => TransportOutcome.thrown "x") (fun _ => TransportOutcome.thrown "x")
    (fun _ => TransportOutcome.thrown "x") (fun _ => TransportOutcome.thrown "x")
    (fun _ => "x") (fun _ => "x") (fun _ => "x") (fun _ => "x") (fun _ => "x")
    (fun _ => rfl) (fun _ => rfl) (fun _ => rfl) (fun _ => rfl) (fun _ => rfl)
    rfl rfl rfl (by norm_num) (by norm_num [circuitBreakerTimeout])).1

theorem makeApiCall_reply_ok (st : ClientState) (now : ℕ) (t f : String)
    (hc : st.hasClient = true) (hv : validateAndFormatResponse t = some f) :
    makeApiCall st now (TransportOutcome.reply (some t))
      = (st.updateRateLimitInfo now, Except.ok f) := by
  unfold makeApiCall
  simp [hc, hv]

theorem attemptLoop_reply_success (now : ℕ) (outcomes : ℕ → TransportOutcome)
    (k attempt : ℕ) (st : ClientState) (calls : ℕ) (delays : List ℕ) (t f : String)
    (h : outcomes attempt = TransportOutcome.reply (some t))
    (hc : st.hasClient = true) (hv : validateAndFormatResponse t = some f) :
    attemptLoop now outcomes (k + 1) attempt st calls delays
      = ((st.updateRateLimitInfo now).onSuccess, ⟨true, some f, none⟩,
          calls + 1, delays) := by
  have e := makeApiCall_reply_ok st now t f hc hv
  simp only [attemptLoop, h, e, hc, if_true]

/-- Claim C7: with the first two transport attempts throwing and the
third resolving to "  'Nice one!'  ", the call succeeds with the
trimmed, quote-stripped text, makes exactly 3 transport invocations with
doubling backoff delays, never exceeds 3 attempts for any outcomes, and
the orchestrator wraps such a success as an api-sourced response. -/
theorem c7_remote_retry (st : ClientState) (now : ℕ)
    (outcomes : ℕ → TransportOutcome) (m1 m2 : String)
    (h1 : outcomes 1 = TransportOutcome.thrown m1)
    (h2 : outcomes 2 = TransportOutcome.thrown m2)
    (h3 : outcomes 3 = TransportOutcome.reply (some "  \x27Nice one!\x27  "))
    (hbr : st.breaker ≠ CircuitBreakerState.opened)
    (hav : st.isAvailable = true)
    (hrate : ¬(st.rateRemaining = 0 ∧ now < st.rateResetTime)) :
    (st.generateHumor now outcomes).result.success = true ∧
    (st.generateHumor now outcomes).result.humor = some "Nice one!" ∧
    (st.generateHumor now outcomes).transportCalls = 3 ∧
    (st.generateHumor now outcomes).delays = [baseDelay, baseDelay * 2] ∧
    (∀ o : ℕ → TransportOutcome,
      (st.generateHumor now o).transportCalls ≤ maxRetries) ∧
    (∀ (env : EngineEnv) (cfg : ConsoleRoastConfig) (analysis : ContentAnalysis),
      env.cacheFails = false → env.cacheHit = none →
      shouldUseApi cfg env = true → env.apiSuccess = true →
      env.apiHumor = some "Nice one!" →
      (engineGenerateHumor env cfg analysis).response.text = some "Nice one!" ∧
      (engineGenerateHumor env cfg analysis).response.source = HumorSource.api) := by
  have hc : st.hasClient = true := isAvailable_hasClient hav
  have hv : validateAndFormatResponse "  \x27Nice one!\x27  " = some "Nice one!" := by
    decide
  have hloop : attemptLoop now outcomes 3 1 st 0 []
      = ((st.updateRateLimitInfo now).onSuccess, ⟨true, some "Nice one!", none⟩,
          3, [baseDelay, baseDelay * 2]) := by
    rw [show (3 : ℕ) = 2 + 1 from rfl,
      attemptLoop_thrown_cont now outcomes 2 1 st 0 [] m1 h1 hc (by norm_num),
      show (2 : ℕ) = 1 + 1 from rfl,
      attemptLoop_thrown_cont now outcomes 1 2 st 1 _ m2 h2 hc (by norm_num),
      show (1 : ℕ) = 0 + 1 from rfl,
      attemptLoop_reply_success now outcomes 0 3 st 2 _ _ _ h3 hc hv]
    norm_num
  have hmain : st.generateHumor now outcomes =
      { state := (st.updateRateLimitInfo now).onSuccess
        result := ⟨true, some "Nice one!", none⟩
        transportCalls := 3
        delays := [baseDelay, baseDelay * 2]
        breakerEntered := st.breaker } := by
    unfold ClientState.generateHumor
    rw [if_neg hbr]
    unfold clientBody
    rw [if_neg (by simp [hav] : ¬ st.isAvailable = false), if_neg hrate]
    show ({ state := (attemptLoop now outcomes maxRetries 1 st 0 []).1
            result := (attemptLoop now outcomes maxRetries 1 st 0 []).2.1
            transportCalls := (attemptLoop now outcomes maxRetries 1 st 0 []).2.2.1
            delays := (attemptLoop now outcomes maxRetries 1 st 0 []).2.2.2
            breakerEntered := st.breaker } : CallTrace) = _
    rw [show maxRetries = 3 from rfl, hloop]
  refine ⟨by rw [hmain], by rw [hmain], by rw [hmain], by rw [hmain],
    fun o => generateHumor_calls_le st now o, ?_⟩
  intro env cfg analysis hcf hch hsua has hah
  unfold engineGenerateHumor
  rw [hcf, hch]
  simp only [if_false]
  rw [hsua]
  simp only [if_true, has, hah]
  constructor <;> simp [jsTruthyStr, hah]

/-- Witness for c7_remote_retry at a concrete healthy client state. -/
theorem c7_remote_retry_witness :
    ((fun i => if i = 3
        then TransportOutcome.reply (some "  \x27Nice one!\x27  ")
        else TransportOutcome.thrown "e") 1 = TransportOutcome.thrown "e" ∧
     (⟨true, some "k", 100, 0, 100, CircuitBreakerState.closed, 0, none⟩
        : ClientState).isAvailable = true) ∧
    ((⟨true, some "k", 100, 0, 100, CircuitBreakerState.closed, 0, none⟩
        : ClientState).generateHumor 0
      (fun i => if i = 3
        then TransportOutcome.reply (some "  \x27Nice one!\x27  ")
        else TransportOutcome.thrown "e")).result.humor = some "Nice one!" := by
  refine ⟨⟨by decide, rfl⟩, ?_⟩
  exact (c7_remote_retry
    (⟨true, some "k", 100, 0, 100, CircuitBreakerState.closed, 0, none⟩ : ClientState)
    0
    (fun i => if i = 3
      then TransportOutcome.reply (some "  \x27Nice one!\x27  ")
      else TransportOutcome.thrown "e")
    "e" "e" (by decide) (by decide) (by decide) (by decide) rfl
    (by decide)).2.1

/-- Claim C8, counterexample: a call whose three transport invocations
all throw leaves the rate-limit remaining counter untouched, so it is
not decremented on every outbound attempt. -/
theorem c8_counterexample :
    ((⟨true, some "k", 100, 999999999, 100, CircuitBreakerState.closed, 0, none⟩
        : ClientState).generateHumor 5
      (fun _ => TransportOutcome.thrown "x")).transportCalls = 3 ∧
    ((⟨true, some "k", 100, 999999999, 100, CircuitBreakerState.closed, 0, none⟩
        : ClientState).generateHumor 5
      (fun _ => TransportOutcome.thrown "x")).state.rateRemaining = 100 := by
  exact ⟨by decide, by decide⟩

/-- Claim C8 (amended): the remaining counter is decremented exactly on
attempts whose transport resolves with a response (even one that later
fails validation); attempts that throw or time out leave the rate-limit
window untouched; and on a resolved attempt at or after the window
reset time, remaining is reset to the full quota (overriding that
attempt's decrement) and a fresh 60000 ms window starts. -/
theorem c8_rate_limit (st : ClientState) (now : ℕ) (hc : st.hasClient = true) :
    (∀ m, (makeApiCall st now (TransportOutcome.thrown m)).1 = st) ∧
    (∀ b, now ≥ st.rateResetTime →
      (makeApiCall st now (TransportOutcome.reply b)).1.rateRemaining
          = st.requestsPerMinute ∧
      (makeApiCall st now (TransportOutcome.reply b)).1.rateResetTime
          = now + 60000) ∧
    (∀ b, now < st.rateResetTime →
      (makeApiCall st now (TransportOutcome.reply b)).1.rateRemaining
          = st.rateRemaining - 1 ∧
      (makeApiCall st now (TransportOutcome.reply b)).1.rateResetTime
          = st.rateResetTime) := by
  refine ⟨fun m => makeApiCall_thrown_eq st now m hc ▸ rfl, ?_, ?_⟩
  · intro b hge
    rw [makeApiCall_fst_reply st now b hc]
    unfold ClientState.updateRateLimitInfo
    dsimp only
    rw [if_pos (by simpa using hge)]
    exact ⟨rfl, rfl⟩
  · intro b hlt
    rw [makeApiCall_fst_reply st now b hc]
    unfold ClientState.updateRateLimitInfo
    dsimp only
    rw [if_neg (by simpa using Nat.not_le.mpr hlt)]
    exact ⟨rfl, rfl⟩

/-- Witness for c8_rate_limit at a concrete state. -/
theorem c8_rate_limit_witness :
    ((⟨true, some "k", 7, 10, 100, CircuitBreakerState.closed, 0, none⟩
        : ClientState).hasClient = true) ∧
    (makeApiCall (⟨true, some "k", 7, 10, 100, CircuitBreakerState.closed, 0, none⟩
        : ClientState) 3 (TransportOutcome.thrown "x")).1
      = (⟨true, some "k", 7, 10, 100, CircuitBreakerState.closed, 0, none⟩
        : ClientState) := by
  refine ⟨rfl, ?_⟩
  exact (c8_rate_limit
    (⟨true, some "k", 7, 10, 100, CircuitBreakerState.closed, 0, none⟩ : ClientState)
    3 rfl).1 "x"

/-! ### Engine lemmas (claims C1, C10) -/

theorem getD_mem_of_lt {α : Type} (l : List α) (i : ℕ) (d : α)
    (h : i < l.length) : l.getD i d ∈ l := by
  induction l generalizing i with
  | nil => simp at h
  | cons a t ih =>
      cases i with
      | zero => simp
      | succ n =>
          rw [List.getD_cons_succ]
          exact List.mem_cons_of_mem _ (ih n (by simpa using h))

theorem jsTruthyStr_true {o : Option String} (h : jsTruthyStr o = true) :
    ∃ t, o = some t ∧ t ≠ "" := by
  cases o with
  | none => simp [jsTruthyStr] at h
  | some t =>
      refine ⟨t, rfl, ?_⟩
      simpa [jsTruthyStr] using h

theorem ultimateFallback_mem (level : HumorLevel) (rand : ℕ) :
    getUltimateFallback level rand ∈ ultimateFallbackList level := by
  unfold getUltimateFallback
  apply getD_mem_of_lt
  apply Nat.mod_lt
  cases level <;> decide

theorem ultimateFallback_ne (level : HumorLevel) (rand : ℕ) :
    getUltimateFallback level rand ≠ "" := by
  have hmem := ultimateFallback_mem level rand
  have hall : ∀ x ∈ ultimateFallbackList level, x ≠ "" := by
    cases level <;> decide
  exact hall _ hmem

/-- The local tier always produces a non-empty string provided every
matching database entry is well-formed (non-empty responses array of
non-empty strings); the category and general tiers are truthiness
checked by the source itself, and the hard-coded backstop is non-empty. -/
theorem generateFromLocal_ne (env : EngineEnv) (cfg : ConsoleRoastConfig)
    (analysis : ContentAnalysis)
    (hdb : ∀ e ∈ env.dbMatching, e.responses ≠ [] ∧ ∀ r ∈ e.responses, r ≠ "") :
    ∃ t, generateFromLocal env cfg analysis = some t ∧ t ≠ "" := by
  unfold generateFromLocal
  by_cases h : 0 < env.dbMatching.length
  · rw [dif_pos h]
    have hmem : env.dbMatching.get ⟨env.randEntry % env.dbMatching.length,
        Nat.mod_lt _ h⟩ ∈ env.dbMatching := List.get_mem _ _ _
    obtain ⟨hne, hall⟩ := hdb _ hmem
    have hlen : 0 < (env.dbMatching.get ⟨env.randEntry % env.dbMatching.length,
        Nat.mod_lt _ h⟩).responses.length := List.length_pos.mpr hne
    rw [dif_pos hlen]
    exact ⟨_, rfl, hall _ (List.get_mem _ _ _)⟩
  · rw [dif_neg h]
    cases ht : jsTruthyStr (env.dbRandom (selectHumorType analysis)) with
    | true =>
        obtain ⟨t, hteq, htne⟩ := jsTruthyStr_true ht
        rw [if_pos ht]
        exact ⟨t, hteq, htne⟩
    | false =>
        rw [if_neg (by simp [ht])]
        cases hg : jsTruthyStr (env.dbRandom "general") with
        | true =>
            obtain ⟨t, hteq, htne⟩ := jsTruthyStr_true hg
            rw [if_pos hg]
            exact ⟨t, hteq, htne⟩
        | false =>
            rw [if_neg (by simp [hg])]
            exact ⟨_, rfl, ultimateFallback_ne _ _⟩

/-- Claim C1: generateHumor - a total function in this model, mirroring
the try/catch wrappers in the source - always returns a response with
non-empty text, for any remote availability, any cache state whose
entries hold non-empty text (the only entries the engine itself writes),
and any database results whose entries are well-formed, including a
database returning no entries at all; and when every phrase lookup
fails, the text comes from the hard-coded per-level fallback list. -/
theorem c1_fallback_totality (env : EngineEnv) (cfg : ConsoleRoastConfig)
    (analysis : ContentAnalysis)
    (hdb : ∀ e ∈ env.dbMatching, e.responses ≠ [] ∧ ∀ r ∈ e.responses, r ≠ "")
    (hcache : ∀ r, env.cacheHit = some r → ∃ t, r.text = some t ∧ t ≠ "") :
    (∃ t, (engineGenerateHumor env cfg analysis).response.text = some t ∧ t ≠ "") ∧
    ((env.cacheFails = true ∨ env.cacheHit = none) →
     (shouldUseApi cfg env = false ∨ env.apiSuccess = false ∨
       jsTruthyStr env.apiHumor = false) →
     env.dbMatching = [] →
     jsTruthyStr (env.dbRandom (selectHumorType analysis)) = false →
     jsTruthyStr (env.dbRandom "general") = false →
     (engineGenerateHumor env cfg analysis).response.text
       = some (getUltimateFallback cfg.humorLevel env.randFallback) ∧
     getUltimateFallback cfg.humorLevel env.randFallback
       ∈ ultimateFallbackList cfg.humorLevel) := by
  have hlocal := generateFromLocal_ne env cfg analysis hdb
  constructor
  · unfold engineGenerateHumor
    cases hscrut : (if env.cacheFails then none else env.cacheHit) with
    | some r =>
        have hr : env.cacheHit = some r := by
          by_cases hcf : env.cacheFails
          · rw [if_pos hcf] at hscrut; cases hscrut
          · rw [if_neg hcf] at hscrut; exact hscrut
        obtain ⟨t, hteq, htne⟩ := hcache r hr
        exact ⟨t, by simpa using hteq, htne⟩
    | none =>
        dsimp only
        by_cases hsua : shouldUseApi cfg env = true
        · rw [if_pos hsua]
          cases hok : (env.apiSuccess && jsTruthyStr env.apiHumor) with
          | true =>
              obtain ⟨t, hteq, htne⟩ := jsTruthyStr_true
                ((Bool.and_eq_true _ _).mp hok).2
              rw [if_pos rfl]
              exact ⟨t, by simpa using hteq, htne⟩
          | false =>
              rw [if_neg (by simp : ¬ false = true)]
              obtain ⟨t, hteq, htne⟩ := hlocal
              exact ⟨t, by simpa using hteq, htne⟩
        · rw [if_neg hsua]
          obtain ⟨t, hteq, htne⟩ := hlocal
          exact ⟨t, by simpa using hteq, htne⟩
  · intro hmiss hapi hmat hcat hgen
    have hflocal : generateFromLocal env cfg analysis
        = some (getUltimateFallback cfg.humorLevel env.randFallback) := by
      unfold generateFromLocal
      rw [dif_neg (by rw [hmat]; simp)]
      rw [if_neg (by simp [hcat]), if_neg (by simp [hgen])]
    have hscrut : (if env.cacheFails then none else env.cacheHit)
        = (none : Option HumorResponse) := by
      rcases hmiss with h | h
      · rw [if_pos h]
      · by_cases hcf : env.cacheFails
        · rw [if_pos hcf]
        · rw [if_neg hcf]; exact h
    unfold engineGenerateHumor
    rw [hscrut]
    dsimp only
    have hmemb := ultimateFallback_mem cfg.humorLevel env.randFallback
    by_cases hsua : shouldUseApi cfg env = true
    · rw [if_pos hsua]
      have hnotok : (env.apiSuccess && jsTruthyStr env.apiHumor) = false := by
        rcases hapi with h | h | h
        · rw [h] at hsua; cases hsua
        · rw [h]; rfl
        · rw [h]; simp
      rw [if_neg (by simp [hnotok])]
      exact ⟨by simpa using congrArg some hflocal, hmemb⟩
    · rw [if_neg hsua]
      exact ⟨by simpa using congrArg some hflocal, hmemb⟩

/-- Witness for c1_fallback_totality: every oracle empty or failing. -/
theorem c1_fallback_totality_witness :
    (∀ e ∈ ([] : List HumorEntry), e.responses ≠ [] ∧ ∀ r ∈ e.responses, r ≠ "") ∧
    (∃ t, (engineGenerateHumor
      ⟨false, none, false, false, none, [], fun _ => none, 0, 0, 0⟩
      ⟨none, HumorLevel.mild, 50, true, 100, 5000, true⟩
      ⟨[], Complexity.simple, false, Sentiment.neutral, [], "hi"⟩).response.text
        = some t ∧ t ≠ "") := by
  refine ⟨by simp, ?_⟩
  exact (c1_fallback_totality
    ⟨false, none, false, false, none, [], fun _ => none, 0, 0, 0⟩
    ⟨none, HumorLevel.mild, 50, true, 100, 5000, true⟩
    ⟨[], Complexity.simple, false, Sentiment.neutral, [], "hi"⟩
    (by simp) (by simp)).1

/-- Claim C10: with fallbackToLocal set to false the orchestrator never
invokes the remote client, and every non-cached result is local-sourced
with confidence 0.7. -/
theorem c10_local_only (env : EngineEnv) (cfg : ConsoleRoastConfig)
    (analysis : ContentAnalysis) (hfb : cfg.fallbackToLocal = false) :
    (engineGenerateHumor env cfg analysis).apiCalled = false ∧
    ((engineGenerateHumor env cfg analysis).response.cached = false →
      (engineGenerateHumor env cfg analysis).response.source = HumorSource.local ∧
      (engineGenerateHumor env cfg analysis).response.confidence = 7/10) := by
  have hsua : shouldUseApi cfg env = false := by
    unfold shouldUseApi
    rw [hfb]
    simp
  unfold engineGenerateHumor
  cases hscrut : (if env.cacheFails then none else env.cacheHit) with
  | some r =>
      refine ⟨rfl, ?_⟩
      intro hc
      simp at hc
  | none =>
      dsimp only
      rw [if_neg (by simp [hsua])]
      exact ⟨rfl, fun _ => ⟨rfl, rfl⟩⟩

/-- Witness for c10_local_only at a concrete configuration. -/
theorem c10_local_only_witness :
    ((⟨some "k", HumorLevel.medium, 50, true, 100, 5000, false⟩
        : ConsoleRoastConfig).fallbackToLocal = false) ∧
    (engineGenerateHumor
      ⟨false, none, true, true, some "remote humor", [], fun _ => none, 0, 0, 0⟩
      ⟨some "k", HumorLevel.medium, 50, true, 100, 5000, false⟩
      ⟨[], Complexity.simple, false, Sentiment.neutral, [], "hi"⟩).apiCalled = false := by
  refine ⟨rfl, ?_⟩
  exact (c10_local_only
    ⟨false, none, true, true, some "remote humor", [], fun _ => none, 0, 0, 0⟩
    ⟨some "k", HumorLevel.medium, 50, true, 100, 5000, false⟩
    ⟨[], Complexity.simple, false, Sentiment.neutral, [], "hi"⟩ rfl).1

/-! ### generateKey lemmas (claim C5) -/

theorem isJsSpace_jsToLower (c : Char) : isJsSpace (jsToLower c) = isJsSpace c := by
  unfold jsToLower
  split <;> rfl

theorem jsToLower_space : jsToLower ' ' = ' ' := rfl

theorem collapseWsAux_lower (l : List Char) :
    ∀ b : Bool, collapseWsAux b (jsToLowerList l) = jsToLowerList (collapseWsAux b l) := by
  induction l with
  | nil => intro b; rfl
  | cons c cs ih =>
      intro b
      show collapseWsAux b (jsToLower c :: jsToLowerList cs) = _
      unfold collapseWsAux
      rw [isJsSpace_jsToLower]
      by_cases hsp : isJsSpace c = true
      · rw [if_pos hsp, if_pos hsp]
        cases b with
        | true => exact ih true
        | false =>
            simp only [if_false, Bool.false_eq_true]
            show ' ' :: collapseWsAux true (jsToLowerList cs)
              = jsToLowerList (' ' :: collapseWsAux true cs)
            rw [ih true]
            rfl
      · rw [if_neg hsp, if_neg hsp]
        show jsToLower c :: collapseWsAux false (jsToLowerList cs)
          = jsToLowerList (c :: collapseWsAux false cs)
        rw [ih false]
        rfl

theorem collapseWs_lower (l : List Char) :
    collapseWs (jsToLowerList l) = jsToLowerList (collapseWs l) :=
  collapseWsAux_lower l false

theorem jsTrimList_lower (l : List Char) :
    jsTrimList (jsToLowerList l) = jsToLowerList (jsTrimList l) := by
  have hpred : isJsSpace ∘ jsToLower = isJsSpace := by
    funext c
    simp only [Function.comp]
    exact isJsSpace_jsToLower c
  unfold jsTrimList jsToLowerList
  rw [List.dropWhile_map, hpred, ← List.map_reverse, List.dropWhile_map, hpred,
    ← List.map_reverse]

theorem normalize_of_wsCanon {x y : String}
    (h : jsTrimList (collapseWs x.data) = jsTrimList (collapseWs y.data)) :
    normalizeContent x = normalizeContent y := by
  unfold normalizeContent
  rw [collapseWs_lower, jsTrimList_lower, h, ← jsTrimList_lower, ← collapseWs_lower]

theorem sha256Hex_length (msg : List ℕ) : (sha256Hex msg).length = 64 := by
  unfold sha256Hex wordHex
  simp

set_option maxRecDepth 10000 in
/-- Claim C5, counterexample: the inputs "a . b" and "a  b" differ only
by the removal of one punctuation character (stripping the non-word
characters of the first yields exactly the second), with identical word
content, yet their keys differ: punctuation is stripped after whitespace
collapsing, so removing the dot leaves a double space that never gets
collapsed. -/
theorem c5_counterexample :
    String.mk (stripNonWord ("a . b".data)) = "a  b" ∧
    generateKey "a . b" ≠ generateKey "a  b" := by
  exact ⟨by decide, by decide⟩

/-- Claim C5 (amended): generateKey is deterministic (it is a function)
and always returns a 16-character key; inputs that agree after ASCII
lowercasing yield identical keys; inputs that agree after collapsing
whitespace runs and trimming yield identical keys; and more generally
inputs with equal normalized forms (lowercase, collapse, trim, strip
punctuation, truncate) yield identical keys.  Punctuation-only
differences are covered only through the last clause: they wash out
exactly when stripping punctuation leaves the same residual text, which
fails when a stripped character separated two whitespace runs. -/
theorem c5_generate_key (x y : String) :
    (generateKey x).length = 16 ∧
    (jsToLowerList x.data = jsToLowerList y.data →
      generateKey x = generateKey y) ∧
    (jsTrimList (collapseWs x.data) = jsTrimList (collapseWs y.data) →
      generateKey x = generateKey y) ∧
    (normalizeContent x = normalizeContent y →
      generateKey x = generateKey y) := by
  refine ⟨?_, ?_, ?_, ?_⟩
  · show (String.mk ((sha256Hex (utf8Encode (normalizeContent x))).take 16)).length = 16
    show ((sha256Hex (utf8Encode (normalizeContent x))).take 16).length = 16
    rw [List.length_take, sha256Hex_length]
    norm_num
  · intro h
    unfold generateKey normalizeContent
    rw [h]
  · intro h
    unfold generateKey
    rw [normalize_of_wsCanon h]
  · intro h
    unfold generateKey
    rw [h]

/-- Witness for c5_generate_key: keys are case-insensitive. -/
theorem c5_generate_key_witness :
    (jsToLowerList "A".data = jsToLowerList "a".data) ∧
    generateKey "A" = generateKey "a" := by
  refine ⟨by decide, (c5_generate_key "A" "a").2.1 (by decide)⟩

end RoastLog
